import Mathlib

/-!
Verification development for the OzonParser2 parsing core: a shallow
embedding, in Lean 4, of the resource scheduler (`src/utils/resource_manager.py`),
the round-robin work partitioner and per-item retry loops
(`src/parsers/product_parser.py`, `src/parsers/seller_parser.py`), the seller
text-block scoring heuristics (`src/parsers/seller_parser.py`), and the job
orchestrator (`src/core/app_manager.py`).  Pure functions from the Python
source are translated into executable Lean functions; stateful components are
modelled by explicit state passing and a reachability relation.  External
collaborators (the browser engine, `json.loads`, `datetime.now`) appear as
explicit parameters.
-/

/-! ## Python string primitives

Character-level helpers modelling Python's `str` operations used by the
source: whitespace classes for `\s` and `str.strip`, substring membership
(`in`), `str.startswith`, and `str.lower` (`str.lower` is full Unicode in
Python; here it is modelled on the ASCII and Cyrillic ranges, which cover
every string the source compares case-insensitively). -/

def pyIsSpace (c : Char) : Bool :=
  c == ' ' || c == '\t' || c == '\n' || c == '\r' || c == '\x0B' || c == '\x0C'

def pyIsDigit (c : Char) : Bool :=
  '0' ≤ c && c ≤ '9'

def pyLowerChar (c : Char) : Char :=
  if 'A' ≤ c && c ≤ 'Z' then Char.ofNat (c.toNat + 32)
  else if 'А' ≤ c && c ≤ 'Я' then Char.ofNat (c.toNat + 32)
  else if c == 'Ё' then 'ё'
  else c

def pyLower (s : String) : String :=
  String.mk (s.toList.map pyLowerChar)

def startsWithC : List Char → List Char → Bool
  | _, [] => true
  | [], _ :: _ => false
  | h :: hs, p :: ps => h == p && startsWithC hs ps

def containsSubC (hay pat : List Char) : Bool :=
  match hay with
  | [] => pat.isEmpty
  | _ :: t => startsWithC hay pat || containsSubC t pat

/-- Python's substring test: `pat in hay`. -/
def pyContains (hay pat : String) : Bool :=
  containsSubC hay.toList pat.toList

/-- Python's `s.startswith(pat)`. -/
def pyStartsWith (s pat : String) : Bool :=
  startsWithC s.toList pat.toList

/-- Python's `s.strip()`. -/
def pyStrip (s : String) : String :=
  String.mk (((s.toList.dropWhile pyIsSpace).reverse.dropWhile pyIsSpace).reverse)

/-! ## Resource scheduler (`src/utils/resource_manager.py`)

`UserSession` mirrors the `@dataclass UserSession`; `datetime.now()` is
modelled as an abstract `Nat` timestamp supplied to each operation.  The
session dictionary `_active_sessions` is modelled as an association list with
dictionary semantics (existing keys updated in place, new keys appended). -/

structure UserSession where
  user_id : String
  start_time : Nat
  current_stage : String
  allocated_workers : Nat
  total_items : Nat
  processed_items : Nat
deriving Repr, DecidableEq

def MAX_TOTAL_WORKERS : Nat := 15

def MAX_WORKERS_PER_USER : Nat := 5

def MIN_WORKERS_PER_USER : Nat := 2

abbrev SessionTable := List (String × UserSession)

def tblFind : SessionTable → String → Option UserSession
  | [], _ => none
  | (k, s) :: t, u => if k = u then some s else tblFind t u

def containsKey (t : SessionTable) (u : String) : Bool :=
  (tblFind t u).isSome

/-- Modelled from the spec: `_redistribute_workers` is truncated out of
`src/src/utils/resource_manager.py` (the file ends before the method's body),
so the redistribution pass is taken from spec section 4.1: `base =
clamp(total / N, M, X)`. -/
def clampBase (n : Nat) : Nat :=
  min MAX_WORKERS_PER_USER (max MIN_WORKERS_PER_USER (MAX_TOTAL_WORKERS / n))

/-- Modelled from the spec (section 4.1 step 3): one ordered pass handing one
unit of remaining capacity to each session not yet at the per-user maximum. -/
def passOnce : Nat → List Nat → Nat × List Nat
  | rem, [] => (rem, [])
  | 0, l => (0, l)
  | rem + 1, a :: t =>
    if a < MAX_WORKERS_PER_USER then
      let p := passOnce rem t
      (p.1, (a + 1) :: p.2)
    else
      let p := passOnce (rem + 1) t
      (p.1, a :: p.2)

/-- Modelled from the spec (section 4.1 step 3): repeat ordered passes until
capacity is exhausted or every session is at the per-user maximum.  `fuel`
starts at the remaining capacity, which bounds the number of productive
passes. -/
def handOut : Nat → Nat → List Nat → List Nat
  | 0, _, l => l
  | _ + 1, 0, l => l
  | fuel + 1, rem + 1, l =>
    let p := passOnce (rem + 1) l
    if p.1 = rem + 1 then p.2 else handOut fuel p.1 p.2

/-- Modelled from the spec: the allocation list computed by the section 4.1
redistribution for `n` active sessions.  Every session gets `base =
clamp(total / N, M, X)`; if `base * N < total` and `base < X` the remaining
capacity is handed out one unit at a time. -/
def redistributeAllocs (n : Nat) : List Nat :=
  let base := clampBase n
  let rem :=
    if base * n < MAX_TOTAL_WORKERS ∧ base < MAX_WORKERS_PER_USER then
      MAX_TOTAL_WORKERS - base * n
    else 0
  handOut rem rem (List.replicate n base)

/-- Stable insertion into a list sorted by ascending `start_time` (used to
model the spec's "ascending order of Session creation time"). -/
def insertByStart (e : String × UserSession) : SessionTable → SessionTable
  | [] => [e]
  | x :: xs =>
    if e.2.start_time ≤ x.2.start_time then e :: x :: xs
    else x :: insertByStart e xs

/-- Stable sort of the session table by ascending `start_time`. -/
def sortByStart : SessionTable → SessionTable
  | [] => []
  | x :: xs => insertByStart x (sortByStart xs)

/-- Modelled from the spec: the full redistribution pass of section 4.1
(`_redistribute_workers` is missing from the truncated source).  Allocations
are handed out in ascending order of session creation time and written back
to the sessions. -/
def redistribute (t : SessionTable) : SessionTable :=
  List.zipWith (fun e a => (e.1, { e.2 with allocated_workers := a }))
    (sortByStart t)
    (redistributeAllocs t.length)

/-- The in-place mutation of an existing session on re-admission: stage and
total set to the new arguments, processed reset to 0, `start_time` untouched
(the source comment: "НЕ обновляем start_time"). -/
def updateSessionEntry (user_id stage : String) (total_items : Nat)
    (e : String × UserSession) : String × UserSession :=
  if e.1 = user_id then
    (e.1, { e.2 with current_stage := stage, total_items := total_items,
                     processed_items := 0 })
  else e

/-- `ResourceManager.start_parsing_session`: update the user's session in
place if present (stage, total, processed reset; `start_time` untouched),
else create it stamped with the current time; then always redistribute and
return the user's freshly computed allocation. -/
def start_parsing_session (t : SessionTable) (user_id stage : String)
    (total_items : Nat) (now : Nat) : SessionTable × Nat :=
  let t1 :=
    if containsKey t user_id then
      t.map (updateSessionEntry user_id stage total_items)
    else
      t ++ [(user_id, ⟨user_id, now, stage, 0, total_items, 0⟩)]
  let t2 := redistribute t1
  (t2, ((tblFind t2 user_id).map (fun s => s.allocated_workers)).getD 0)

/-- `ResourceManager.update_progress`: best-effort update of the processed
count; no-op when the session is absent. -/
def update_progress (t : SessionTable) (user_id : String) (processed : Nat) :
    SessionTable :=
  t.map (fun e =>
    if e.1 = user_id then (e.1, { e.2 with processed_items := processed }) else e)

/-- `ResourceManager.finish_parsing_session`: delete the session if present
and redistribute among the remainder. -/
def finish_parsing_session (t : SessionTable) (user_id : String) : SessionTable :=
  if containsKey t user_id then
    redistribute (t.filter (fun e => ¬ (e.1 = user_id)))
  else t

/-- Scheduler states reachable from the empty session table by any sequence
of admissions, progress updates and releases. -/
inductive ReachableSched : SessionTable → Prop where
  | init : ReachableSched []
  | start {t : SessionTable} (u stg : String) (n now : Nat) :
      ReachableSched t → ReachableSched (start_parsing_session t u stg n now).1
  | progress {t : SessionTable} (u : String) (p : Nat) :
      ReachableSched t → ReachableSched (update_progress t u p)
  | finish {t : SessionTable} (u : String) :
      ReachableSched t → ReachableSched (finish_parsing_session t u)

def allocSum (t : SessionTable) : Nat :=
  (t.map (fun e => e.2.allocated_workers)).sum

/-- The user identifiers in the table are pairwise distinct (dictionary-key
uniqueness, which Python's `dict` guarantees by construction). -/
def keysNodup (t : SessionTable) : Prop :=
  (t.map Prod.fst).Nodup

/-! ## Round-robin partition (`OzonProductParser._distribute_articles`)

The imperative loop `chunks[i % num_workers].append(article)` becomes a
recursion threading the chunk list. -/

def appendAt {α : Type} (chunks : List (List α)) (j : Nat) (a : α) :
    List (List α) :=
  chunks.set j (chunks.getD j [] ++ [a])

def distributeGo {α : Type} : List α → Nat → Nat → List (List α) → List (List α)
  | [], _, _, chunks => chunks
  | a :: rest, w, i, chunks => distributeGo rest w (i + 1) (appendAt chunks (i % w) a)

def distribute_articles {α : Type} (articles : List α) (num_workers : Nat) :
    List (List α) :=
  distributeGo articles num_workers 0 (List.replicate num_workers [])

/-- The indices-mod-`w` characterization of one round-robin chunk: the items
of `l` whose position, counted from `i`, is congruent to `j` modulo `w`. -/
def rrFrom {α : Type} : Nat → List α → Nat → Nat → List α
  | _, [], _, _ => []
  | i, a :: rest, w, j => (if i % w = j then [a] else []) ++ rrFrom (i + 1) rest w j

/-! ## Stage wrappers and their scheduler effect

`OzonProductParser.parse_products` and `OzonSellerParser.parse_sellers` admit
a session for the user, run the stage body, and release the session in a
`finally` block.  The stage body's only possible interactions with the
scheduler are `update_progress` calls, modelled as an arbitrary list of
updates; the body may finish normally or raise, and the `finally` runs in
both cases. -/

/-- `re.search(r'/product/[^/]+-(\d+)/', url)` applied at one candidate
position: the characters after a `/product/` occurrence.  The match requires
a non-empty `/`-free segment closed by `/`, whose trailing maximal digit run
is non-empty and directly preceded by `-` with a non-empty part before it. -/
def articleAt (rest : List Char) : Option String :=
  let seg := rest.takeWhile (fun c => !(c == '/'))
  if seg.length < rest.length ∧ ¬ seg.isEmpty then
    let revSeg := seg.reverse
    let ds := revSeg.takeWhile pyIsDigit
    match ds, revSeg.drop ds.length with
    | [], _ => none
    | _, [] => none
    | _ :: _, c :: bs =>
      if c = '-' ∧ ¬ bs.isEmpty then some (String.mk ds.reverse) else none
  else none

/-- The scan of `re.search` over candidate start positions, leftmost
`/product/` occurrence with a matching tail first. -/
def findArticle : List Char → Option String
  | [] => none
  | c :: rest =>
    if startsWithC (c :: rest) "/product/".toList then
      match articleAt (List.drop 9 (c :: rest)) with
      | some d => some d
      | none => findArticle rest
    else findArticle rest

/-- `OzonProductParser._extract_article_from_url`. -/
def extract_article_from_url (url : String) : String :=
  match findArticle url.toList with
  | some d => d
  | none => ""

/-- Python's `list(set(l))` for seller-id deduplication, modelled as
first-occurrence deduplication (only membership and length are relied on). -/
def dedupAcc : List String → List String → List String
  | [], _ => []
  | x :: xs, seen =>
    if seen.contains x then dedupAcc xs seen else x :: dedupAcc xs (x :: seen)

def dedup (l : List String) : List String :=
  dedupAcc l []

/-- The scheduler effect of a stage body: a sequence of best-effort progress
updates issued by the workers. -/
def applyProgress : SessionTable → List (String × Nat) → SessionTable
  | t, [] => t
  | t, (u, p) :: ps => applyProgress (update_progress t u p) ps

/-- Whether the stage body returned normally or raised an exception. -/
inductive StageOutcome where
  | ok
  | exc (msg : String)

/-- Python truthiness of the optional `user_id` (`if self.user_id:`): true
exactly for a non-None, non-empty string. -/
def truthyId : Option String → Bool
  | none => false
  | some s => !(s == "")

/-- Scheduler-state effect of `OzonProductParser.parse_products`: extract
articles from the link keys, return early when none, otherwise admit the
session (when `user_id` is truthy), run the body, and release the session in
the `finally` block on both the normal and the exceptional path. -/
def parse_products_sched (t : SessionTable) (user_id : Option String)
    (link_keys : List String) (now : Nat) (body : List (String × Nat))
    (outcome : StageOutcome) : SessionTable :=
  let articles := (link_keys.map extract_article_from_url).filter
    (fun a => !(a == ""))
  if articles.isEmpty then t
  else if truthyId user_id then
    match user_id, outcome with
    | some uid, StageOutcome.ok =>
      finish_parsing_session
        (applyProgress (start_parsing_session t uid "products" articles.length now).1
          body) uid
    | some uid, StageOutcome.exc _ =>
      finish_parsing_session
        (applyProgress (start_parsing_session t uid "products" articles.length now).1
          body) uid
    | none, _ => applyProgress t body
  else applyProgress t body

/-- Scheduler-state effect of `OzonSellerParser.parse_sellers`: deduplicate
the seller ids, return early when none, otherwise admit, run the body, and
release in the `finally` block on both paths. -/
def parse_sellers_sched (t : SessionTable) (user_id : Option String)
    (seller_ids : List String) (now : Nat) (body : List (String × Nat))
    (outcome : StageOutcome) : SessionTable :=
  let unique := dedup seller_ids
  if unique.isEmpty then t
  else if truthyId user_id then
    match user_id, outcome with
    | some uid, StageOutcome.ok =>
      finish_parsing_session
        (applyProgress (start_parsing_session t uid "sellers" unique.length now).1
          body) uid
    | some uid, StageOutcome.exc _ =>
      finish_parsing_session
        (applyProgress (start_parsing_session t uid "sellers" unique.length now).1
          body) uid
    | none, _ => applyProgress t body
  else applyProgress t body

/-! ## Company-name cleanup (`SellerWorker._clean_company_name`) -/

/-- `re.sub(r'\s+', ' ', s)`: each whitespace run becomes one space.  The
Boolean argument records whether the previous character was whitespace. -/
def collapseGo : List Char → Bool → List Char
  | [], _ => []
  | c :: rest, prevSpace =>
    if pyIsSpace c then
      if prevSpace then collapseGo rest true else ' ' :: collapseGo rest true
    else c :: collapseGo rest false

/-- The alternation `(ООО|ИП|АО|ЗАО|ПАО)` of the duplicate-legal-form regex.
No alternative is a prefix of another, so at most one can match at a given
position and the regex is deterministic. -/
def legalFormAlternation : List String :=
  ["ООО", "ИП", "АО", "ЗАО", "ПАО"]

def matchFormGo : List String → List Char → Option (String × List Char)
  | [], _ => none
  | f :: fs, cs =>
    if startsWithC cs f.toList then some (f, cs.drop f.toList.length)
    else matchFormGo fs cs

/-- `re.sub(r'^(ООО|ИП|АО|ЗАО|ПАО)\s+(ООО|ИП|АО|ЗАО|ПАО)\s+', r'\1', s)`:
when the anchored pattern matches, the whole match is replaced by the first
captured group alone (note: `\1` carries no trailing space). -/
def dupFormSub (cs : List Char) : List Char :=
  match matchFormGo legalFormAlternation cs with
  | none => cs
  | some (f1, r1) =>
    let ws1 := r1.takeWhile pyIsSpace
    if ws1.isEmpty then cs
    else
      match matchFormGo legalFormAlternation (r1.drop ws1.length) with
      | none => cs
      | some (_, r3) =>
        let ws2 := r3.takeWhile pyIsSpace
        if ws2.isEmpty then cs
        else f1.toList ++ r3.drop ws2.length

/-- `re.sub(r'[,\s]+$', '', s)`: strip trailing commas and whitespace. -/
def stripCommaSpace (cs : List Char) : List Char :=
  (cs.reverse.dropWhile (fun c => c == ',' || pyIsSpace c)).reverse

/-- `SellerWorker._clean_company_name`: collapse whitespace and trim, drop a
duplicated leading legal form, strip trailing commas/whitespace. -/
def clean_company_name (company : String) : String :=
  if company == "" then ""
  else
    let step1 := pyStrip (String.mk (collapseGo company.toList false))
    let step2 := String.mk (dupFormSub step1.toList)
    String.mk (stripCommaSpace step2.toList)

/-! ## JSON payload model

Fetched payloads are JSON documents; widget values are JSON-encoded strings
decoded again with `json.loads`.  JSON values are modelled by the inductive
`J`; `json.loads` itself is an external collaborator and is passed in as a
parameter `loads : String → Except String J` (the error carries the
exception message).  Python truthiness and `str()` are modelled for the
shapes the source applies them to. -/

inductive J where
  | jnull
  | jbool (b : Bool)
  | jnum (n : Int)
  | jstr (s : String)
  | jarr (xs : List J)
  | jobj (fields : List (String × J))

/-- Python dictionary lookup `d[k]` / `k in d` over decoded JSON objects. -/
def jGet : List (String × J) → String → Option J
  | [], _ => none
  | (k, v) :: rest, key => if k == key then some v else jGet rest key

/-- Python truthiness of a decoded JSON value. -/
def pyFalsy : J → Bool
  | J.jnull => true
  | J.jbool b => !b
  | J.jnum n => n == 0
  | J.jstr s => s == ""
  | J.jarr xs => xs.isEmpty
  | J.jobj fs => fs.isEmpty

/-- Python `str()` of a decoded value, used by `_extract_price_number` only
to harvest digits; container reprs are not modelled (no digits are taken
from them by any property under verification). -/
def pyStrForDigits : J → String
  | J.jstr s => s
  | J.jnum n => toString n
  | J.jbool true => "True"
  | J.jbool false => "False"
  | J.jnull => "None"
  | J.jarr _ => ""
  | J.jobj _ => ""

def digitsVal (cs : List Char) : Nat :=
  cs.foldl (fun acc c => acc * 10 + (c.toNat - '0'.toNat)) 0

def digitsOf (s : String) : String :=
  String.mk (s.toList.filter pyIsDigit)

/-- `ProductWorker._extract_price_number`: strip non-digits and parse the
remainder as an integer; falsy or fully non-numeric input yields 0. -/
def extract_price_number (price : J) : Int :=
  if pyFalsy price then 0
  else
    let cleaned := digitsOf (pyStrForDigits price)
    if cleaned == "" then 0 else Int.ofNat (digitsVal cleaned.toList)

/-- Outcome of reading `data["widgetStates"]` from a decoded payload:
present as an object, absent (the "missing" record is emitted), or a shape
on which the subsequent Python operations raise (`in` on a number,
`.items()` on a non-dict, string indexing), which the outer handler turns
into the generic data-error record. -/
inductive WSResult where
  | found (wf : List (String × J))
  | missing
  | raised

def getWidgetStates (data : J) : WSResult :=
  match data with
  | J.jobj fields =>
    match jGet fields "widgetStates" with
    | none => WSResult.missing
    | some (J.jobj wf) => WSResult.found wf
    | some _ => WSResult.raised
  | J.jarr xs =>
    if xs.any (fun x => match x with | J.jstr s => s == "widgetStates" | _ => false)
    then WSResult.raised else WSResult.missing
  | J.jstr s => if pyContains s "widgetStates" then WSResult.raised else WSResult.missing
  | _ => WSResult.raised

/-! ## Product extraction (`src/parsers/product_parser.py`) -/

/-- `ProductInfo` dataclass.  `name`, `company_name`, `image_url` and the
seller sub-fields hold raw decoded values (Python is dynamically typed and
the source stores whatever `.get` returns); `inn` is the attribute created
dynamically by `product_info.inn = ...` — note the dataclass field
`company_inn` is never assigned by `_parse_json_response`. -/
structure ProductInfo where
  article : String
  name : J := J.jstr ""
  company_name : J := J.jstr ""
  company_inn : J := J.jstr ""
  inn : J := J.jstr ""
  image_url : J := J.jstr ""
  card_price : Int := 0
  price : Int := 0
  original_price : Int := 0
  seller_id : String := ""
  seller_link : String := ""
  success : Bool := false
  error : String := ""

/-- `ProductWorker._find_sticky_product_data`: first `webStickyProducts-`
key whose string value decodes; malformed JSON is skipped. -/
def find_sticky_product_data (loads : String → Except String J) :
    List (String × J) → Option J
  | [] => none
  | (k, v) :: rest =>
    if pyStartsWith k "webStickyProducts-" then
      match v with
      | J.jstr s =>
        match loads s with
        | Except.ok j => some j
        | Except.error _ => find_sticky_product_data loads rest
      | _ => find_sticky_product_data loads rest
    else find_sticky_product_data loads rest

/-- `ProductWorker._find_price_data`: same scan for `webPrice-` keys. -/
def find_price_data (loads : String → Except String J) :
    List (String × J) → Option J
  | [] => none
  | (k, v) :: rest =>
    if pyStartsWith k "webPrice-" then
      match v with
      | J.jstr s =>
        match loads s with
        | Except.ok j => some j
        | Except.error _ => find_price_data loads rest
      | _ => find_price_data loads rest
    else find_price_data loads rest

/-- `re.search(r'/seller/(\d+)/', link)`: leftmost `/seller/` occurrence
followed by a maximal non-empty digit run closed by `/`. -/
def findSellerIdGo : List Char → Option String
  | [] => none
  | c :: rest =>
    if startsWithC (c :: rest) "/seller/".toList then
      let after := List.drop 8 (c :: rest)
      let ds := after.takeWhile pyIsDigit
      if ¬ ds.isEmpty ∧ (after.drop ds.length).head? = some '/' then
        some (String.mk ds)
      else findSellerIdGo rest
    else findSellerIdGo rest

def findSellerId (s : String) : Option String :=
  findSellerIdGo s.toList

/-- The sticky-product block of `_parse_json_response`: name, image and
seller fields.  An `Except.error` is a Python exception (`AttributeError` on
`.get` of a non-dict, `TypeError` in `re.search` on a non-string link)
reaching the outer handler. -/
def productSticky (loads : String → Except String J) (article : String)
    (wf : List (String × J)) : Except String ProductInfo :=
  match find_sticky_product_data loads wf with
  | none => Except.ok { article := article }
  | some sj =>
    if pyFalsy sj then Except.ok { article := article }
    else
      match sj with
      | J.jobj sf =>
        match (jGet sf "seller").getD (J.jobj []) with
        | J.jobj sellf =>
          if pyFalsy ((jGet sellf "link").getD (J.jstr "")) then
            Except.ok { article := article
                        name := (jGet sf "name").getD (J.jstr "")
                        image_url := (jGet sf "coverImageUrl").getD (J.jstr "")
                        company_name := (jGet sellf "name").getD (J.jstr "")
                        inn := (jGet sellf "inn").getD (J.jstr "") }
          else
            match (jGet sellf "link").getD (J.jstr "") with
            | J.jstr sl =>
              match findSellerId sl with
              | some sid =>
                Except.ok { article := article
                            name := (jGet sf "name").getD (J.jstr "")
                            image_url := (jGet sf "coverImageUrl").getD (J.jstr "")
                            company_name := (jGet sellf "name").getD (J.jstr "")
                            inn := (jGet sellf "inn").getD (J.jstr "")
                            seller_id := sid
                            seller_link := "https://ozon.ru/seller/" ++ sid }
              | none =>
                Except.ok { article := article
                            name := (jGet sf "name").getD (J.jstr "")
                            image_url := (jGet sf "coverImageUrl").getD (J.jstr "")
                            company_name := (jGet sellf "name").getD (J.jstr "")
                            inn := (jGet sellf "inn").getD (J.jstr "") }
            | _ => Except.error "TypeError"
        | _ => Except.error "AttributeError"
      | _ => Except.error "AttributeError"

/-- The price block of `_parse_json_response`. -/
def productPriced (loads : String → Except String J) (wf : List (String × J))
    (p1 : ProductInfo) : Except String ProductInfo :=
  match find_price_data loads wf with
  | none => Except.ok p1
  | some pj =>
    if pyFalsy pj then Except.ok p1
    else
      match pj with
      | J.jobj pf =>
        Except.ok { p1 with
          card_price := extract_price_number ((jGet pf "cardPrice").getD (J.jstr ""))
          price := extract_price_number ((jGet pf "price").getD (J.jstr ""))
          original_price :=
            extract_price_number ((jGet pf "originalPrice").getD (J.jstr "")) }
      | _ => Except.error "AttributeError"

/-- The body of `_parse_json_response` after `widgetStates` is in hand:
sticky block, price block, then the success check. -/
def productCore (loads : String → Except String J) (article : String)
    (wf : List (String × J)) : Except String ProductInfo :=
  match productSticky loads article wf with
  | Except.error e => Except.error e
  | Except.ok p1 =>
    match productPriced loads wf p1 with
    | Except.error e => Except.error e
    | Except.ok p2 =>
      if ¬ pyFalsy p2.name ∨ p2.card_price ≠ 0 then
        Except.ok { p2 with success := true }
      else
        Except.ok { p2 with error := "Не найдена основная информация о товаре" }

/-- `ProductWorker._parse_json_response`. -/
def parse_json_response (loads : String → Except String J) (article : String)
    (json_content : String) : ProductInfo :=
  match loads json_content with
  | Except.error e => { article := article, error := "Ошибка парсинга JSON: " ++ e }
  | Except.ok data =>
    match getWidgetStates data with
    | WSResult.missing =>
      { article := article, error := "Отсутствует widgetStates в ответе" }
    | WSResult.raised =>
      { article := article, error := "Ошибка обработки данных: TypeError" }
    | WSResult.found wf =>
      match productCore loads article wf with
      | Except.ok p => p
      | Except.error e =>
        { article := article, error := "Ошибка обработки данных: " ++ e }

/-! ## Per-item retry loops

One attempt issues a fetch (`navigate_to_url`), waits for the JSON payload
(`wait_for_json_response`) and parses it.  The fetch layer is external, so
an attempt's observable outcome is supplied by a function from attempt index
to `AttemptResult`.  The second component of the loop's result collects the
`time.sleep(5)` backoffs it performed. -/

inductive AttemptResult where
  | navFail
  | noJson
  | gotJson (content : String)
  | raised (msg : String)
deriving Repr, DecidableEq

/-- `ProductWorker._parse_single_product`, retry loop over `range(3)`:
`left` counts the remaining iterations, `k` is the current attempt index. -/
def parse_single_product_go (loads : String → Except String J) (article : String)
    (f : Nat → AttemptResult) : Nat → Nat → List Nat → ProductInfo × List Nat
  | _, 0, sleeps => ({ article := article, error := "Превышено количество попыток" }, sleeps)
  | k, left + 1, sleeps =>
    match f k with
    | AttemptResult.navFail =>
      if 0 < left then
        parse_single_product_go loads article f (k + 1) left (sleeps ++ [5])
      else ({ article := article, error := "Не удалось загрузить страницу API" }, sleeps)
    | AttemptResult.noJson =>
      if 0 < left then
        parse_single_product_go loads article f (k + 1) left (sleeps ++ [5])
      else ({ article := article, error := "Не получен JSON ответ" }, sleeps)
    | AttemptResult.gotJson c =>
      let pi := parse_json_response loads article c
      if pi.success then (pi, sleeps)
      else if 0 < left then
        parse_single_product_go loads article f (k + 1) left (sleeps ++ [5])
      else (pi, sleeps)
    | AttemptResult.raised m =>
      if 0 < left then
        parse_single_product_go loads article f (k + 1) left (sleeps ++ [5])
      else ({ article := article, error := "Ошибка парсинга: " ++ m }, sleeps)

def parse_single_product (loads : String → Except String J) (article : String)
    (f : Nat → AttemptResult) : ProductInfo × List Nat :=
  parse_single_product_go loads article f 0 3 []

/-- Whether one attempt of the product loop counts as failed (no usable
payload, an exception, or a parse without `success`). -/
def productAttemptFails (loads : String → Except String J) (article : String)
    (r : AttemptResult) : Bool :=
  match r with
  | AttemptResult.navFail => true
  | AttemptResult.noJson => true
  | AttemptResult.raised _ => true
  | AttemptResult.gotJson c => !(parse_json_response loads article c).success

/-! ## Seller extraction (`src/parsers/seller_parser.py`)

Company names flow through `_extract_company_name_from_text`, which returns
either a string or — when the text contains a `<br>` tag — Python `None`
(its `for` loop `break`s past the `return`), so company values are modelled
as `Option String` (`none` = Python `None`). -/

/-- Python truthiness of a string-or-None company value. -/
def truthyOptStr : Option String → Bool
  | none => false
  | some s => !(s == "")

/-- `html.unescape`, modelled for the five standard entities; the full HTML5
entity table is not consulted by any property under verification. -/
def unescapeGo : List Char → List Char
  | [] => []
  | '&' :: 'a' :: 'm' :: 'p' :: ';' :: rest => '&' :: unescapeGo rest
  | '&' :: 'l' :: 't' :: ';' :: rest => '<' :: unescapeGo rest
  | '&' :: 'g' :: 't' :: ';' :: rest => '>' :: unescapeGo rest
  | '&' :: 'q' :: 'u' :: 'o' :: 't' :: ';' :: rest => '"' :: unescapeGo rest
  | '&' :: '#' :: '3' :: '9' :: ';' :: rest => Char.ofNat 39 :: unescapeGo rest
  | c :: rest => c :: unescapeGo rest

def htmlUnescape (s : String) : String :=
  String.mk (unescapeGo s.toList)

/-- `re.search(r"(\d{10,15})$", text)`: when the trailing digit run has
length `L ≥ 10` the match is the last `min 15 L` digits; returns the match
length. -/
def innAtEnd (cs : List Char) : Option Nat :=
  let L := (cs.reverse.takeWhile pyIsDigit).length
  if 10 ≤ L then some (min 15 L) else none

/-- `re.search(r"\d{10,15}", text)`: leftmost position starting a digit run
of length at least 10; the greedy match takes at most 15 of them. -/
def findInnRun : List Char → Option String
  | [] => none
  | c :: rest =>
    let ds := (c :: rest).takeWhile pyIsDigit
    if 10 ≤ ds.length then some (String.mk (ds.take 15))
    else findInnRun rest

/-- `SellerWorker._extract_company_name_from_text`.  The `for` loop over the
`<br>` variants returns on its very first iteration unless `"<br>"` occurs
in the text, in which case the `break` skips the `return` and the function
falls through to Python `None`. -/
def extract_company_name_from_text (text : String) : Option String :=
  if text == "" then some ""
  else if pyContains text "<br>" then none
  else
    let cs := text.toList
    let company :=
      match innAtEnd cs with
      | some m =>
        String.mk (stripCommaSpace
          (pyStrip (String.mk (cs.take (cs.length - m)))).toList)
      | none => pyStrip text
    some (htmlUnescape (clean_company_name company))

/-- The `textAtom` text harvest of `_extract_company_data`: any non-dict
item, missing `textAtom`/`text` key, or non-dict `textAtom` raises, and the
enclosing handler returns `("", "")`. -/
def collectTextAtoms : List J → Except String (List J)
  | [] => Except.ok []
  | item :: rest =>
    match item with
    | J.jobj f =>
      if (match jGet f "type" with
          | some (J.jstr s) => s == "textAtom"
          | _ => false) then
        match jGet f "textAtom" with
        | none => Except.error "KeyError"
        | some (J.jobj tf) =>
          match jGet tf "text" with
          | none => Except.error "KeyError"
          | some txt => (collectTextAtoms rest).map (fun l => txt :: l)
        | some _ => Except.error "TypeError"
      else collectTextAtoms rest
    | _ => Except.error "AttributeError"

/-- The tax-id scan `for text in text_atoms: re.search(r"\d{10,15}", text)`;
a non-string atom reached before a match raises. -/
def findInnAcrossAtoms : List J → Except String String
  | [] => Except.ok ""
  | J.jstr s :: rest =>
    match findInnRun s.toList with
    | some inn => Except.ok inn
    | none => findInnAcrossAtoms rest
  | _ :: _ => Except.error "TypeError"

/-- `SellerWorker._extract_company_data`.  Every raising path ends in the
`except` clause returning `("", "")`; the single-`textAtom` branch always
raises because it calls `.split()` and then passes the resulting *list* to
string and regex operations. -/
def extract_company_data (loads : String → Except String J) (v : J) :
    Option String × String :=
  match v with
  | J.jstr s =>
    match loads s with
    | Except.error _ => (some "", "")
    | Except.ok (J.jobj f) =>
      match jGet f "body" with
      | some (J.jarr body) =>
        match collectTextAtoms body with
        | Except.error _ => (some "", "")
        | Except.ok atoms =>
          match atoms with
          | [] => (some "", "")
          | [_] => (some "", "")
          | a :: _ :: _ =>
            match a with
            | J.jstr s0 =>
              match findInnAcrossAtoms atoms with
              | Except.error _ => (some "", "")
              | Except.ok inn =>
                (extract_company_name_from_text (pyStrip s0), inn)
            | _ => (some "", "")
      | _ => (some "", "")
    | Except.ok _ => (some "", "")
  | _ => (some "", "")

/-- The fixed boilerplate phrase list of `_calculate_text_block_score`. -/
def unwantedPhrases : List String :=
  ["О магазине", "Оригинальные товары", "Premium магазин",
   "Понятно", "Заказов", "Работает с Ozon", "Средняя оценка",
   "Количество отзывов", "Это крупный магазин"]

/-- The legal-entity marker list of `_calculate_text_block_score`. -/
def legalForms : List String :=
  ["ООО", "ИП", "АО", "ЗАО", "ПАО", "Ltd", "LLC", "Inc", "Co"]

/-- The work-schedule keyword list of `_calculate_text_block_score`. -/
def workScheduleKeywords : List String :=
  ["график", "работает", "согласно", "ozon", "время"]

/-- `company.lower() if company else ""`. -/
def companyLowerStr : Option String → String
  | none => ""
  | some s => if s == "" then "" else pyLower s

/-- Base points: +10 for a truthy name. -/
def scoreBase (company : Option String) : Int :=
  if truthyOptStr company then 10 else 0

/-- −20 per boilerplate phrase found (case-insensitively) in the name. -/
def scorePenalty (company : Option String) : Int :=
  -20 * ((unwantedPhrases.filter
    (fun p => pyContains (companyLowerStr company) (pyLower p))).length : Int)

/-- Name-shape bonuses: +5 per legal-form marker (case-sensitive substring),
+3 for a quotation mark, +2 for a trimmed length in [5, 100]. -/
def scoreNameBonus (company : Option String) : Int :=
  match company with
  | none => 0
  | some s =>
    if s == "" then 0
    else
      5 * ((legalForms.filter (fun f => pyContains s f)).length : Int)
      + (if pyContains s "\"" || pyContains s "«" then 3 else 0)
      + (if 5 ≤ (pyStrip s).length ∧ (pyStrip s).length ≤ 100 then 2 else 0)

/-- The comprehension `[item for item in body if item.get("type") ==
"textAtom"]` keeping whole items; a non-dict item raises. -/
def filterTextAtomItems : List J → Except String (List (List (String × J)))
  | [] => Except.ok []
  | J.jobj f :: rest =>
    if (match jGet f "type" with
        | some (J.jstr s) => s == "textAtom"
        | _ => false) then
      (filterTextAtomItems rest).map (fun l => f :: l)
    else filterTextAtomItems rest
  | _ :: _ => Except.error "AttributeError"

/-- `item.get("textAtom", {}).get("text", "")`. -/
def textOfAtomItem (f : List (String × J)) : Except String J :=
  match jGet f "textAtom" with
  | none => Except.ok (J.jstr "")
  | some (J.jobj tf) => Except.ok ((jGet tf "text").getD (J.jstr ""))
  | some _ => Except.error "AttributeError"

/-- The `try` block of `_calculate_text_block_score` that inspects the raw
widget JSON: +8 when exactly two `textAtom`s and the second looks like a
work schedule, +5 more when the first is truthy with no boilerplate.  An
exception after the +8 keeps the +8 (the `except: pass` only stops further
scoring). -/
def jsonStructureBonus (loads : String → Except String J) (raw : J) : Int :=
  match raw with
  | J.jstr s =>
    match loads s with
    | Except.error _ => 0
    | Except.ok (J.jobj f) =>
      match jGet f "body" with
      | some (J.jarr body) =>
        match filterTextAtomItems body with
        | Except.error _ => 0
        | Except.ok atomItems =>
          match atomItems with
          | [it0, it1] =>
            match textOfAtomItem it0 with
            | Except.error _ => 0
            | Except.ok ft =>
              match textOfAtomItem it1 with
              | Except.error _ => 0
              | Except.ok st =>
                match st with
                | J.jstr ss =>
                  let b8 : Int :=
                    if workScheduleKeywords.any
                        (fun kw => pyContains (pyLower ss) kw) then 8 else 0
                  match ft with
                  | J.jstr fs =>
                    let b5 : Int :=
                      if ¬ (fs == "") ∧ ¬ unwantedPhrases.any
                          (fun p => pyContains (pyLower fs) (pyLower p)) then 5
                      else 0
                    b8 + b5
                  | _ => b8
                | _ => 0
          | _ => 0
      | _ => 0
    | Except.ok _ => 0
  | _ => 0

/-- `SellerWorker._calculate_text_block_score`: the score is the sum of the
independent `+=` blocks of the source. -/
def calculate_text_block_score (loads : String → Except String J)
    (company : Option String) (inn : String) (raw : J) : Int :=
  scoreBase company
    + (if inn ≠ "" then 15 else 0)
    + scorePenalty company
    + scoreNameBonus company
    + jsonStructureBonus loads raw

/-- The `textBlock-` collection pass of `_pick_best_text_block`: blocks with
some data (`if company or inn`), in table order, as
`(company, inn, raw value)`. -/
def collectTextBlocks (loads : String → Except String J) :
    List (String × J) → List (Option String × String × J)
  | [] => []
  | (k, v) :: rest =>
    if pyStartsWith k "textBlock-" then
      let ci := extract_company_data loads v
      if truthyOptStr ci.1 || !(ci.2 == "") then
        (ci.1, ci.2, v) :: collectTextBlocks loads rest
      else collectTextBlocks loads rest
    else collectTextBlocks loads rest

/-- The scoring fold of `_pick_best_text_block`: strictly greater scores
replace the running best, so ties keep the earlier candidate. -/
def pickFold (loads : String → Except String J) :
    List (Option String × String × J) → Option String × String × Int →
      Option String × String × Int
  | [], best => best
  | b :: rest, best =>
    let sc := calculate_text_block_score loads b.1 b.2.1 b.2.2
    if best.2.2 < sc then pickFold loads rest (b.1, b.2.1, sc)
    else pickFold loads rest best

/-- `re.search(r'textBlock-(\d+)', key)`: leftmost `textBlock-` occurrence
followed by a non-empty digit run; returns its integer value. -/
def findTBNumGo : List Char → Option Nat
  | [] => none
  | c :: rest =>
    if startsWithC (c :: rest) "textBlock-".toList then
      let after := List.drop 10 (c :: rest)
      let ds := after.takeWhile pyIsDigit
      if ds.isEmpty then findTBNumGo rest else some (digitsVal ds)
    else findTBNumGo rest

/-- The fallback's collection pass: `textBlock-` keys with a numeric
position and a truthy company. -/
def collectFallbackBlocks (loads : String → Except String J) :
    List (String × J) → List (Nat × Option String × String)
  | [] => []
  | (k, v) :: rest =>
    if pyStartsWith k "textBlock-" then
      match findTBNumGo k.toList with
      | some pos =>
        let ci := extract_company_data loads v
        if truthyOptStr ci.1 then
          (pos, ci.1, ci.2) :: collectFallbackBlocks loads rest
        else collectFallbackBlocks loads rest
      | none => collectFallbackBlocks loads rest
    else collectFallbackBlocks loads rest

/-- Stable insertion sort by ascending position (Python `list.sort` with a
`position` key is stable). -/
def insertByPos (e : Nat × Option String × String) :
    List (Nat × Option String × String) → List (Nat × Option String × String)
  | [] => [e]
  | x :: xs => if e.1 ≤ x.1 then e :: x :: xs else x :: insertByPos e xs

def sortByPos : List (Nat × Option String × String) →
    List (Nat × Option String × String)
  | [] => []
  | x :: xs => insertByPos x (sortByPos xs)

/-- The fallback's service-text filter: the three-phrase list of
`_fallback_text_block_search` (a strict subset of `unwantedPhrases`). -/
def fallbackPhrases : List String :=
  ["о магазине", "оригинальные товары", "premium"]

def firstAcceptable : List (Nat × Option String × String) → Option String × String
  | [] => (some "", "")
  | (_, c, i) :: rest =>
    match c with
    | some s =>
      if ¬ fallbackPhrases.any (fun p => pyContains (pyLower s) p) then (some s, i)
      else firstAcceptable rest
    | none => firstAcceptable rest

/-- `SellerWorker._fallback_text_block_search`. -/
def fallback_text_block_search (loads : String → Except String J)
    (ws : List (String × J)) : Option String × String :=
  firstAcceptable (sortByPos (collectFallbackBlocks loads ws))

/-- `SellerWorker._pick_best_text_block`. -/
def pick_best_text_block (loads : String → Except String J)
    (ws : List (String × J)) : Option String × String :=
  let best := pickFold loads (collectTextBlocks loads ws) (some "", "", 0)
  if best.2.2 ≤ 0 then fallback_text_block_search loads ws
  else (best.1, best.2.1)

/-! ### Specification-side selection (for the refinement statement of the
selection claim) -/

/-- Acceptance test of the fallback: a name containing none of the three
service phrases. -/
def fallbackAccepts (b : Nat × Option String × String) : Bool :=
  match b.2.1 with
  | some s => !(fallbackPhrases.any (fun p => pyContains (pyLower s) p))
  | none => false

/-- Written from the spec's words, amended to the three-phrase list the code
actually uses: scan candidates in ascending order of the numeric key suffix
and return the first whose name contains none of the three phrases. -/
def specFallbackSearch (loads : String → Except String J)
    (ws : List (String × J)) : Option String × String :=
  match (sortByPos (collectFallbackBlocks loads ws)).find? fallbackAccepts with
  | some b => (b.2.1, b.2.2)
  | none => (some "", "")

/-- Written from the claim's words (not amended): the fallback filtered by
the full scoring phrase list, used to exhibit the divergence. -/
def claimFallbackSearch (loads : String → Except String J)
    (ws : List (String × J)) : Option String × String :=
  match (sortByPos (collectFallbackBlocks loads ws)).find?
      (fun b => match b.2.1 with
        | some s => !(unwantedPhrases.any
            (fun p => pyContains (pyLower s) (pyLower p)))
        | none => false) with
  | some b => (b.2.1, b.2.2)
  | none => (some "", "")

/-- Written from the spec's words: the candidate with the strictly highest
score wins, a tie keeps the first-encountered candidate (the first block
whose score equals the maximum), and with no score above 0 the fallback
applies. -/
def specPickBest (loads : String → Except String J)
    (ws : List (String × J)) : Option String × String :=
  let blocks := collectTextBlocks loads ws
  let m := (blocks.map
    (fun b => calculate_text_block_score loads b.1 b.2.1 b.2.2)).foldl max 0
  if 0 < m then
    match blocks.find?
        (fun b => calculate_text_block_score loads b.1 b.2.1 b.2.2 == m) with
    | some b => (b.1, b.2.1)
    | none => (some "", "")
  else specFallbackSearch loads ws

/-! ## Seller record assembly (`SellerWorker._parse_json_response`) -/

/-- The result dictionary of `_extract_cell_list_data`.  The source
initializes a key `"review"` but assigns `"reviews"`, which creates a new
key; `review` therefore always stays empty and `reviews` exists only after
an assignment. -/
structure CellData where
  orders : J := J.jstr ""
  working_time : J := J.jstr ""
  rating : J := J.jstr ""
  review : J := J.jstr ""
  reviews : Option J := none

/-- `ds_cell["centerBlock"]["title"]["text"].lower()` with the source's
presence checks; a non-dict on the way raises (modelled as `error`). -/
def titleOf (cb : J) : Except String String :=
  match cb with
  | J.jobj cbf =>
    match jGet cbf "title" with
    | none => Except.ok ""
    | some (J.jobj tf) =>
      match jGet tf "text" with
      | none => Except.ok ""
      | some (J.jstr ts) => Except.ok (pyLower ts)
      | some _ => Except.error "AttributeError"
    | some _ => Except.error "TypeError"
  | _ => Except.error "TypeError"

/-- `ds_cell["rightBlock"]["badge"]["text"]` with the presence checks. -/
def valueOf (rb : J) : Except String J :=
  match rb with
  | J.jobj rbf =>
    match jGet rbf "badge" with
    | none => Except.ok (J.jstr "")
    | some (J.jobj bf) =>
      match jGet bf "text" with
      | none => Except.ok (J.jstr "")
      | some t => Except.ok t
    | some _ => Except.error "TypeError"
  | _ => Except.error "TypeError"

def assignCell (acc : CellData) (title : String) (value : J) : CellData :=
  if pyContains title "заказов" then { acc with orders := value }
  else if pyContains title "работает с ozon" then { acc with working_time := value }
  else if pyContains title "средняя оценка" then { acc with rating := value }
  else if pyContains title "количество отзывов" then { acc with reviews := some value }
  else acc

/-- The cell scan of `_extract_cell_list_data`; an exception mid-scan makes
the `except` clause return the partially filled dictionary. -/
def cellLoop : List J → CellData → CellData
  | [], acc => acc
  | cell :: rest, acc =>
    match cell with
    | J.jobj cf =>
      match jGet cf "dsCell" with
      | none => cellLoop rest acc
      | some (J.jobj dsf) =>
        match jGet dsf "centerBlock", jGet dsf "rightBlock" with
        | some cb, some rb =>
          match titleOf cb, valueOf rb with
          | Except.ok title, Except.ok value => cellLoop rest (assignCell acc title value)
          | _, _ => acc
        | _, _ => cellLoop rest acc
      | some _ => acc
    | _ => acc

/-- `SellerWorker._extract_cell_list_data`. -/
def extract_cell_list_data (loads : String → Except String J) (s : String) :
    CellData :=
  match loads s with
  | Except.error _ => {}
  | Except.ok (J.jobj f) =>
    match jGet f "cells" with
    | some (J.jarr cells) => cellLoop cells {}
    | _ => {}
  | Except.ok _ => {}

/-- `any(cell_data.values())`. -/
def cellAnyTruthy (cd : CellData) : Bool :=
  !(pyFalsy cd.orders) || !(pyFalsy cd.working_time) || !(pyFalsy cd.rating)
    || !(pyFalsy cd.review)
    || (match cd.reviews with | some r => !(pyFalsy r) | none => false)

/-- `SellerInfo` dataclass; stage values from cell badges are raw decoded
values. -/
structure SellerInfo where
  seller_id : String
  company_name : Option String := some ""
  inn : String := ""
  orders_count : J := J.jstr ""
  reviews_count : J := J.jstr ""
  working_time : J := J.jstr ""
  average_rating : J := J.jstr ""
  success : Bool := false
  error : String := ""

/-- The `cellList-` scan of the seller `_parse_json_response`: first string
value whose extracted cell data has any truthy value populates the four
stat fields, then the loop breaks. -/
def applyCellList (loads : String → Except String J) :
    List (String × J) → SellerInfo → SellerInfo
  | [], si => si
  | (k, v) :: rest, si =>
    match v with
    | J.jstr s =>
      if pyStartsWith k "cellList-" then
        if cellAnyTruthy (extract_cell_list_data loads s) then
          { si with
            orders_count := (extract_cell_list_data loads s).orders
            working_time := (extract_cell_list_data loads s).working_time
            average_rating := (extract_cell_list_data loads s).rating
            reviews_count := ((extract_cell_list_data loads s).reviews).getD (J.jstr "") }
        else applyCellList loads rest si
      else applyCellList loads rest si
    | _ => applyCellList loads rest si

/-- The body of the seller `_parse_json_response` once `widgetStates` is in
hand: best text block, cell stats, then the success check. -/
def sellerAssemble (loads : String → Except String J) (seller_id : String)
    (wf : List (String × J)) : SellerInfo :=
  let si1 := applyCellList loads wf
    { seller_id := seller_id
      company_name := (pick_best_text_block loads wf).1
      inn := (pick_best_text_block loads wf).2 }
  if truthyOptStr si1.company_name || !(si1.inn == "")
      || !(pyFalsy si1.orders_count) || !(pyFalsy si1.reviews_count) then
    { si1 with success := true }
  else
    { si1 with error := "Не найдена основная информация о продавце" }

/-- `SellerWorker._parse_json_response`. -/
def seller_parse_json_response (loads : String → Except String J)
    (seller_id : String) (json_content : String) : SellerInfo :=
  match loads json_content with
  | Except.error e =>
    { seller_id := seller_id, error := "Ошибка парсинга JSON: " ++ e }
  | Except.ok data =>
    match getWidgetStates data with
    | WSResult.missing =>
      { seller_id := seller_id, error := "Отсутствует widgetStates в ответе" }
    | WSResult.raised =>
      { seller_id := seller_id, error := "Ошибка обработки данных: TypeError" }
    | WSResult.found wf => sellerAssemble loads seller_id wf

/-- `SellerWorker._parse_single_seller`, retry loop over `range(3)`.  Note
the missing-payload branch tests `attempt < max_retries` (not
`max_retries - 1`), so it sleeps and retries even on the final attempt and
the loop then falls through to the attempts-exhausted record. -/
def parse_single_seller_go (loads : String → Except String J) (seller_id : String)
    (f : Nat → AttemptResult) : Nat → Nat → List Nat → SellerInfo × List Nat
  | _, 0, sleeps =>
    ({ seller_id := seller_id, error := "Превышено количество попыток" }, sleeps)
  | k, left + 1, sleeps =>
    match f k with
    | AttemptResult.navFail =>
      if 0 < left then
        parse_single_seller_go loads seller_id f (k + 1) left (sleeps ++ [5])
      else
        ({ seller_id := seller_id, error := "Не удалось загрузить страницу API" },
          sleeps)
    | AttemptResult.noJson =>
      parse_single_seller_go loads seller_id f (k + 1) left (sleeps ++ [5])
    | AttemptResult.gotJson c =>
      let si := seller_parse_json_response loads seller_id c
      if si.success then (si, sleeps)
      else if 0 < left then
        parse_single_seller_go loads seller_id f (k + 1) left (sleeps ++ [5])
      else (si, sleeps)
    | AttemptResult.raised m =>
      if 0 < left then
        parse_single_seller_go loads seller_id f (k + 1) left (sleeps ++ [5])
      else
        ({ seller_id := seller_id, error := "Ошибка парсинга: " ++ m }, sleeps)

def parse_single_seller (loads : String → Except String J) (seller_id : String)
    (f : Nat → AttemptResult) : SellerInfo × List Nat :=
  parse_single_seller_go loads seller_id f 0 3 []

/-- Whether one attempt of the seller loop counts as failed. -/
def sellerAttemptFails (loads : String → Except String J) (seller_id : String)
    (r : AttemptResult) : Bool :=
  match r with
  | AttemptResult.navFail => true
  | AttemptResult.noJson => true
  | AttemptResult.raised _ => true
  | AttemptResult.gotJson c => !(seller_parse_json_response loads seller_id c).success

/-! ## Session orchestrator (`src/core/app_manager.py`)

`AppManager` state: the active-user set, the global running flag, the stop
event, and the stored result bundles.  Thread creation is external, so
`start_parsing` takes a flag saying whether `Thread(...).start()` succeeded;
time statistics (floats from `time.time()`) are out of the model. -/

structure ResultBundle where
  links : List String
  category_url : String
  total_products : Nat
  successful_products : Nat
  failed_products : Nat
  total_sellers : Nat
  selected_fields : List String
deriving Repr, DecidableEq

/-- The per-user results dictionary built at the end of `_parsing_task`. -/
def mkResultBundle (category_url : String) (selected_fields : List String)
    (links : List String) (products : List ProductInfo)
    (sellers : List SellerInfo) : ResultBundle :=
  { links := links
    category_url := category_url
    total_products := products.length
    successful_products := (products.filter (fun p => p.success)).length
    failed_products := (products.filter (fun p => !p.success)).length
    total_sellers := sellers.length
    selected_fields := selected_fields }

structure AppState where
  is_running : Bool := false
  active_parsing_users : List String := []
  stop_event : Bool := false
  last_results : Option ResultBundle := none
  user_results : List (String × ResultBundle) := []
deriving Repr, DecidableEq

def setAdd (l : List String) (x : String) : List String :=
  if l.contains x then l else l ++ [x]

def setRemove (l : List String) (x : String) : List String :=
  l.filter (fun y => !(y == x))

/-- `user_id and user_id in self.active_parsing_users`. -/
def userActive (st : AppState) (user_id : Option String) : Bool :=
  match user_id with
  | some u => !(u == "") && st.active_parsing_users.contains u
  | none => false

/-- `AppManager.start_parsing`.  Returns (state, returned value, whether a
job thread was launched).  The duplicate check rejects before any mutation;
otherwise the user is marked active, the global flag set (clearing the stop
event) for the first user, and the thread started — rolling the marking back
if thread creation raises. -/
def start_parsing (st : AppState) (user_id : Option String) (spawnOk : Bool) :
    AppState × Bool × Bool :=
  if userActive st user_id then (st, false, false)
  else
    let st1 := match user_id with
      | some u =>
        if u == "" then st
        else { st with active_parsing_users := setAdd st.active_parsing_users u }
      | none => st
    let st2 :=
      if !st1.is_running then { st1 with stop_event := false, is_running := true }
      else st1
    if spawnOk then (st2, true, true)
    else
      let st3 := match user_id with
        | some u =>
          if !(u == "") && st2.active_parsing_users.contains u then
            { st2 with active_parsing_users := setRemove st2.active_parsing_users u }
          else st2
        | none => st2
      let st4 :=
        if st3.active_parsing_users.isEmpty then { st3 with is_running := false }
        else st3
      (st4, false, false)

/-- Update-or-append into the `user_results` dictionary. -/
def dictSet (m : List (String × ResultBundle)) (k : String) (v : ResultBundle) :
    List (String × ResultBundle) :=
  if m.any (fun e => e.1 == k) then
    m.map (fun e => if e.1 == k then (k, v) else e)
  else m ++ [(k, v)]

/-- Inputs of one `_parsing_task` run that come from the outside world: the
link stage result, the stop-event reads at the four checkpoints, and the
stage outputs. -/
structure TaskStageData where
  linkSuccess : Bool
  product_links : List String
  stop1 : Bool
  stop2 : Bool
  productResults : List ProductInfo
  stop3 : Bool
  sellerResults : List SellerInfo
  stop4 : Bool

/-- Downstream side effects of a completed `_parsing_task` run. -/
inductive ExportEvent where
  | savedJson
  | exportedExcel
  | sentReport
deriving Repr, DecidableEq

/-- `AppManager._parsing_task`: the early returns (cancellation checkpoints
and the no-links abort) happen before any result is stored or exported; only
the fall-through end stores the bundle and triggers persistence, export and
notification. -/
def parsing_task (st : AppState) (category_url : String)
    (selected_fields : List String) (user_id : Option String)
    (d : TaskStageData) : AppState × List ExportEvent :=
  if d.stop1 then (st, [])
  else if !d.linkSuccess || d.product_links.isEmpty then (st, [])
  else if d.stop2 then (st, [])
  else if d.stop3 then (st, [])
  else if d.stop4 then (st, [])
  else
    let bundle := mkResultBundle category_url selected_fields d.product_links
      d.productResults d.sellerResults
    let st1 := match user_id with
      | some u =>
        if u == "" then st
        else { st with user_results := dictSet st.user_results u bundle }
      | none => st
    let st2 := { st1 with last_results := some bundle }
    (st2, [ExportEvent.savedJson, ExportEvent.exportedExcel, ExportEvent.sentReport])

/-! ## Concrete fixtures used by witnesses and counterexamples -/

/-- A `json.loads` table for the product retry witness: a payload whose
sticky-product widget carries a name. -/
def loadsC4 : String → Except String J := fun s =>
  if s == "good" then
    Except.ok (J.jobj
      [("widgetStates", J.jobj [("webStickyProducts-1", J.jstr "sp")])])
  else if s == "sp" then Except.ok (J.jobj [("name", J.jstr "Товар")])
  else Except.error "boom"

def fC4 : Nat → AttemptResult := fun k =>
  if k == 0 then AttemptResult.navFail
  else if k == 1 then AttemptResult.noJson
  else AttemptResult.gotJson "good"

/-- A `json.loads` table for the seller retry witness: a text block with a
legal-form company name. -/
def loadsC4s : String → Except String J := fun s =>
  if s == "sgood" then
    Except.ok (J.jobj [("widgetStates", J.jobj [("textBlock-3", J.jstr "tb")])])
  else if s == "tb" then
    Except.ok (J.jobj [("body", J.jarr
      [J.jobj [("type", J.jstr "textAtom"),
               ("textAtom", J.jobj [("text", J.jstr "ИП Иванов")])],
       J.jobj [("type", J.jstr "textAtom"),
               ("textAtom", J.jobj [("text", J.jstr "школа")])]])])
  else Except.error "boom"

def fC4s : Nat → AttemptResult := fun k =>
  if k == 0 then AttemptResult.raised "x"
  else if k == 1 then AttemptResult.gotJson "bad"
  else AttemptResult.gotJson "sgood"

/-- Widget states for the selection counterexample: two text blocks whose
names both carry boilerplate, so every score is ≤ 0 and the fallback runs. -/
def wsC5 : List (String × J) :=
  [("textBlock-1", J.jstr "b1"), ("textBlock-2", J.jstr "b2")]

def loadsC5 : String → Except String J := fun s =>
  if s == "b1" then
    Except.ok (J.jobj [("body", J.jarr
      [J.jobj [("type", J.jstr "textAtom"),
               ("textAtom", J.jobj [("text", J.jstr "Понятно")])],
       J.jobj [("type", J.jstr "textAtom"),
               ("textAtom", J.jobj [("text", J.jstr "что-то")])]])])
  else if s == "b2" then
    Except.ok (J.jobj [("body", J.jarr
      [J.jobj [("type", J.jstr "textAtom"),
               ("textAtom", J.jobj [("text", J.jstr "О магазине Ромашка")])],
       J.jobj [("type", J.jstr "textAtom"),
               ("textAtom", J.jobj [("text", J.jstr "инфо")])]])])
  else Except.error "x"

/-! ### Round-robin partition lemmas -/

lemma length_appendAt {α : Type} (chunks : List (List α)) (j : Nat) (a : α) :
    (appendAt chunks j a).length = chunks.length := by
  simp [appendAt]

lemma length_distributeGo {α : Type} :
    ∀ (l : List α) (w i : Nat) (chunks : List (List α)),
      (distributeGo l w i chunks).length = chunks.length
  | [], _, _, _ => rfl
  | a :: rest, w, i, chunks => by
    rw [distributeGo, length_distributeGo rest, length_appendAt]

lemma getD_appendAt_eq {α : Type} :
    ∀ (chunks : List (List α)) (k : Nat) (a : α), k < chunks.length →
      (appendAt chunks k a).getD k [] = chunks.getD k [] ++ [a]
  | [], k, _, hk => by simp at hk
  | c :: cs, 0, a, _ => rfl
  | c :: cs, k + 1, a, hk => by
    have := getD_appendAt_eq cs k a (by simpa using hk)
    simpa [appendAt] using this

lemma getD_appendAt_ne {α : Type} :
    ∀ (chunks : List (List α)) (k j : Nat) (a : α), k ≠ j →
      (appendAt chunks k a).getD j [] = chunks.getD j []
  | [], k, j, _, _ => by simp [appendAt]
  | c :: cs, 0, 0, a, hne => absurd rfl hne
  | c :: cs, 0, j + 1, a, _ => rfl
  | c :: cs, k + 1, 0, a, _ => rfl
  | c :: cs, k + 1, j + 1, a, hne => by
    have := getD_appendAt_ne cs k j a (fun h => hne (by omega))
    simpa [appendAt] using this

lemma getD_appendAt {α : Type} (chunks : List (List α)) (k j : Nat) (a : α)
    (hk : k < chunks.length) :
    (appendAt chunks k a).getD j [] =
      chunks.getD j [] ++ (if k = j then [a] else []) := by
  by_cases h : k = j
  · subst h
    rw [if_pos rfl]
    exact getD_appendAt_eq chunks k a hk
  · rw [if_neg h, List.append_nil]
    exact getD_appendAt_ne chunks k j a h

lemma distributeGo_getD {α : Type} (w : Nat) (hw : 0 < w) :
    ∀ (l : List α) (i : Nat) (chunks : List (List α)), chunks.length = w →
      ∀ j, j < w →
        (distributeGo l w i chunks).getD j [] = chunks.getD j [] ++ rrFrom i l w j
  | [], i, chunks, _, j, _ => by simp [distributeGo, rrFrom]
  | a :: rest, i, chunks, hlen, j, hj => by
    rw [distributeGo, rrFrom,
      distributeGo_getD w hw rest (i + 1) _ (by rw [length_appendAt]; exact hlen) j hj,
      getD_appendAt chunks (i % w) j a (by rw [hlen]; exact Nat.mod_lt _ hw),
      List.append_assoc]

lemma getD_replicate_nil {α : Type} :
    ∀ (n j : Nat), (List.replicate n ([] : List α)).getD j [] = []
  | 0, j => by cases j <;> rfl
  | n + 1, 0 => rfl
  | n + 1, j + 1 => getD_replicate_nil n j

lemma distribute_articles_getD {α : Type} (l : List α) (w : Nat) (hw : 0 < w)
    (j : Nat) (hj : j < w) :
    (distribute_articles l w).getD j [] = rrFrom 0 l w j := by
  rw [distribute_articles, distributeGo_getD w hw l 0 _ (by simp) j hj,
    getD_replicate_nil, List.nil_append]

lemma distributeGo_append {α : Type} :
    ∀ (xs : List α) (a : α) (w i : Nat) (chunks : List (List α)),
      distributeGo (xs ++ [a]) w i chunks =
        appendAt (distributeGo xs w i chunks) ((i + xs.length) % w) a
  | [], a, w, i, chunks => by simp [distributeGo]
  | x :: xs, a, w, i, chunks => by
    have h : i + 1 + xs.length = i + (x :: xs).length := by
      simp only [List.length_cons]; omega
    show distributeGo (xs ++ [a]) w (i + 1) (appendAt chunks (i % w) x) = _
    rw [distributeGo_append xs a w (i + 1), h]
    rfl

lemma flatten_appendAt_perm {α : Type} :
    ∀ (chunks : List (List α)) (j : Nat) (a : α), j < chunks.length →
      (appendAt chunks j a).flatten.Perm (a :: chunks.flatten)
  | [], j, _, hj => by simp at hj
  | c :: cs, 0, a, _ => by
    simpa [appendAt] using List.perm_middle
  | c :: cs, j + 1, a, hj => by
    have ih := flatten_appendAt_perm cs j a (by simpa using hj)
    have h1 : ((appendAt (c :: cs) (j + 1) a).flatten)
        = c ++ (appendAt cs j a).flatten := by simp [appendAt]
    have h2 : (c ++ (appendAt cs j a).flatten).Perm (c ++ (a :: cs.flatten)) :=
      ih.append_left c
    have h3 : (c ++ (a :: cs.flatten)).Perm (a :: (c ++ cs.flatten)) :=
      List.perm_middle
    rw [h1, List.flatten_cons]
    exact h2.trans h3

lemma flatten_replicate_nil {α : Type} :
    ∀ n : Nat, (List.replicate n ([] : List α)).flatten = []
  | 0 => rfl
  | n + 1 => by simp [flatten_replicate_nil n]

lemma distribute_articles_perm {α : Type} (w : Nat) (hw : 0 < w) :
    ∀ l : List α, ((distribute_articles l w).flatten).Perm l := by
  intro l
  induction l using List.reverseRecOn with
  | nil => simp [distribute_articles, distributeGo, flatten_replicate_nil]
  | append_singleton xs a ih =>
    have hlen : (distribute_articles xs w).length = w := by
      rw [distribute_articles, length_distributeGo, List.length_replicate]
    have hstep : distribute_articles (xs ++ [a]) w =
        appendAt (distribute_articles xs w) (xs.length % w) a := by
      rw [distribute_articles, distributeGo_append, distribute_articles]
      simp
    have h2 : ((appendAt (distribute_articles xs w) (xs.length % w) a).flatten).Perm
        (a :: (distribute_articles xs w).flatten) :=
      flatten_appendAt_perm _ _ _ (by rw [hlen]; exact Nat.mod_lt _ hw)
    have h3 : (a :: (distribute_articles xs w).flatten).Perm (a :: xs) := ih.cons a
    have h4 : (a :: xs).Perm (xs ++ [a]) := (List.perm_append_singleton a xs).symm
    rw [hstep]
    exact (h2.trans h3).trans h4

lemma rrFrom_append {α : Type} :
    ∀ (xs : List α) (a : α) (w i j : Nat),
      rrFrom i (xs ++ [a]) w j =
        rrFrom i xs w j ++ (if (i + xs.length) % w = j then [a] else [])
  | [], a, w, i, j => by simp [rrFrom]
  | x :: xs, a, w, i, j => by
    have h : i + 1 + xs.length = i + (x :: xs).length := by
      simp only [List.length_cons]; omega
    show (if i % w = j then [x] else []) ++ rrFrom (i + 1) (xs ++ [a]) w j = _
    rw [rrFrom_append xs a w (i + 1), h, rrFrom, List.append_assoc]

lemma dvd_shift_iff (w K j : Nat) (hw : 0 < w) (hj : j < w) :
    w ∣ (K + w - j) ↔ K % w = j := by
  constructor
  · rintro ⟨m, hm⟩
    rcases m with _ | m'
    · exact absurd hm (by omega)
    · have h2 : w * (m' + 1) = w * m' + w := by ring
      have hK : K = w * m' + j := by omega
      rw [hK, Nat.mul_add_mod]
      exact Nat.mod_eq_of_lt hj
  · intro h
    have hd := Nat.div_add_mod K w
    refine ⟨K / w + 1, ?_⟩
    have h2 : w * (K / w + 1) = w * (K / w) + w := by ring
    omega

lemma rrFrom_length {α : Type} (w j : Nat) (hw : 0 < w) (hj : j < w) :
    ∀ l : List α, (rrFrom 0 l w j).length = (l.length + (w - 1) - j) / w := by
  intro l
  induction l using List.reverseRecOn with
  | nil =>
    have : (0 + (w - 1) - j) = w - 1 - j := by omega
    simp only [rrFrom, List.length_nil, this]
    exact (Nat.div_eq_of_lt (by omega)).symm
  | append_singleton xs a ih =>
    have harg : xs.length + 1 + (w - 1) - j = (xs.length + (w - 1) - j) + 1 := by
      omega
    have harg2 : xs.length + (w - 1) - j + 1 = xs.length + w - j := by omega
    have hsucc : (xs.length + (w - 1) - j + 1) / w
        = (xs.length + (w - 1) - j) / w
          + if w ∣ xs.length + w - j then 1 else 0 := by
      rw [Nat.succ_div, harg2]
    rw [rrFrom_append, List.length_append, ih]
    simp only [List.length_append, List.length_singleton, Nat.zero_add]
    rw [harg, hsucc]
    by_cases hc : xs.length % w = j
    · rw [if_pos ((dvd_shift_iff w xs.length j hw hj).mpr hc), if_pos hc]
      simp
    · rw [if_neg (fun hdvd => hc ((dvd_shift_iff w xs.length j hw hj).mp hdvd)),
        if_neg hc]
      simp

lemma rrFrom_mem {α : Type} (w : Nat) :
    ∀ (l : List α) (i0 idx : Nat) (h : idx < l.length),
      l[idx] ∈ rrFrom i0 l w ((i0 + idx) % w)
  | [], _, idx, h => by simp at h
  | a :: rest, i0, 0, _ => by
    simp [rrFrom]
  | a :: rest, i0, idx + 1, h => by
    have ih := rrFrom_mem w rest (i0 + 1) idx (by simpa using h)
    have harg : i0 + 1 + idx = i0 + (idx + 1) := by omega
    rw [harg] at ih
    simp only [rrFrom, List.getElem_cons_succ]
    exact List.mem_append_right _ ih

lemma ceil_div_le_succ (K w : Nat) (hw : 0 < w) : (K + w - 1) / w ≤ K / w + 1 := by
  have h1 : K + w - 1 ≤ K + w := by omega
  have h2 : (K + w) / w = K / w + 1 := Nat.add_div_right _ hw
  calc (K + w - 1) / w ≤ (K + w) / w := Nat.div_le_div_right h1
    _ = K / w + 1 := by rw [h2]

/-- C3: for every list of K work items and every worker count W ≥ 1, the
round-robin partition `_distribute_articles` puts item i into chunk i mod W;
every chunk's size is floor(K/W) or ceil(K/W); and the concatenation of the
chunks in worker order is a permutation (multiset equality) of the original
item list. -/
theorem c3_round_robin_partition {α : Type} (articles : List α) (w : Nat)
    (hw : 1 ≤ w) :
    (∀ i (hi : i < articles.length),
        articles[i] ∈ (distribute_articles articles w).getD (i % w) []) ∧
    (∀ j, j < w →
        ((distribute_articles articles w).getD j []).length
            = articles.length / w ∨
        ((distribute_articles articles w).getD j []).length
            = (articles.length + w - 1) / w) ∧
    ((distribute_articles articles w).flatten).Perm articles := by
  have hw0 : 0 < w := hw
  refine ⟨?_, ?_, distribute_articles_perm w hw0 articles⟩
  · intro i hi
    have h := rrFrom_mem w articles 0 i hi
    rw [Nat.zero_add] at h
    rw [distribute_articles_getD articles w hw0 (i % w) (Nat.mod_lt _ hw0)]
    exact h
  · intro j hj
    rw [distribute_articles_getD articles w hw0 j hj, rrFrom_length w j hw0 hj]
    have lb : articles.length / w ≤ (articles.length + (w - 1) - j) / w :=
      Nat.div_le_div_right (by omega)
    have ub : (articles.length + (w - 1) - j) / w ≤ (articles.length + w - 1) / w :=
      Nat.div_le_div_right (by omega)
    have gap := ceil_div_le_succ articles.length w hw0
    omega

/-- C3 witness: the round-robin theorem instantiated at five items and two
workers. -/
theorem c3_round_robin_partition_witness :
    (∀ i (hi : i < ([10, 20, 30, 40, 50] : List Nat).length),
        [10, 20, 30, 40, 50][i]
          ∈ (distribute_articles [10, 20, 30, 40, 50] 2).getD (i % 2) []) ∧
    (∀ j, j < 2 →
        ((distribute_articles ([10, 20, 30, 40, 50] : List Nat) 2).getD j []).length
            = ([10, 20, 30, 40, 50] : List Nat).length / 2 ∨
        ((distribute_articles ([10, 20, 30, 40, 50] : List Nat) 2).getD j []).length
            = (([10, 20, 30, 40, 50] : List Nat).length + 2 - 1) / 2) ∧
    ((distribute_articles ([10, 20, 30, 40, 50] : List Nat) 2).flatten).Perm
      [10, 20, 30, 40, 50] :=
  c3_round_robin_partition [10, 20, 30, 40, 50] 2 (by decide)

/-! ### Scheduler lemmas -/

lemma passOnce_sum : ∀ (rem : Nat) (l : List Nat),
    (passOnce rem l).2.sum + (passOnce rem l).1 = l.sum + rem
  | rem, [] => by simp [passOnce]
  | 0, a :: t => by simp [passOnce]
  | rem + 1, a :: t => by
    have ih1 := passOnce_sum rem t
    have ih2 := passOnce_sum (rem + 1) t
    by_cases h : a < MAX_WORKERS_PER_USER
    · simp only [passOnce, if_pos h, List.sum_cons]
      omega
    · simp only [passOnce, if_neg h, List.sum_cons]
      omega

lemma passOnce_length : ∀ (rem : Nat) (l : List Nat),
    (passOnce rem l).2.length = l.length
  | rem, [] => by simp [passOnce]
  | 0, a :: t => by simp [passOnce]
  | rem + 1, a :: t => by
    have ih1 := passOnce_length rem t
    have ih2 := passOnce_length (rem + 1) t
    by_cases h : a < MAX_WORKERS_PER_USER
    · simp only [passOnce, if_pos h, List.length_cons]
      omega
    · simp only [passOnce, if_neg h, List.length_cons]
      omega

lemma passOnce_lb : ∀ (rem : Nat) (l : List Nat) (m : Nat),
    (∀ a ∈ l, m ≤ a) → ∀ b ∈ (passOnce rem l).2, m ≤ b
  | rem, [], m, _ => by simp [passOnce]
  | 0, a :: t, m, hl => by simpa [passOnce] using hl
  | rem + 1, a :: t, m, hl => by
    have ihead : m ≤ a := hl a (List.mem_cons_self a t)
    have htail : ∀ x ∈ t, m ≤ x := fun x hx => hl x (List.mem_cons_of_mem a hx)
    by_cases h : a < MAX_WORKERS_PER_USER
    · simp only [passOnce, if_pos h]
      intro b hb
      rcases List.mem_cons.mp hb with hb | hb
      · omega
      · exact passOnce_lb rem t m htail b hb
    · simp only [passOnce, if_neg h]
      intro b hb
      rcases List.mem_cons.mp hb with hb | hb
      · omega
      · exact passOnce_lb (rem + 1) t m htail b hb

lemma handOut_sum : ∀ (fuel rem : Nat) (l : List Nat),
    (handOut fuel rem l).sum ≤ l.sum + rem
  | 0, rem, l => by simp [handOut]
  | fuel + 1, 0, l => by simp [handOut]
  | fuel + 1, rem + 1, l => by
    have hp := passOnce_sum (rem + 1) l
    by_cases h : (passOnce (rem + 1) l).1 = rem + 1
    · simp only [handOut, if_pos h]
      omega
    · simp only [handOut, if_neg h]
      have ih := handOut_sum fuel (passOnce (rem + 1) l).1 (passOnce (rem + 1) l).2
      omega

lemma handOut_length : ∀ (fuel rem : Nat) (l : List Nat),
    (handOut fuel rem l).length = l.length
  | 0, rem, l => by simp [handOut]
  | fuel + 1, 0, l => by simp [handOut]
  | fuel + 1, rem + 1, l => by
    have hp := passOnce_length (rem + 1) l
    by_cases h : (passOnce (rem + 1) l).1 = rem + 1
    · simp only [handOut, if_pos h]
      omega
    · simp only [handOut, if_neg h]
      have ih := handOut_length fuel (passOnce (rem + 1) l).1 (passOnce (rem + 1) l).2
      omega

lemma handOut_lb : ∀ (fuel rem : Nat) (l : List Nat) (m : Nat),
    (∀ a ∈ l, m ≤ a) → ∀ b ∈ handOut fuel rem l, m ≤ b
  | 0, rem, l, m, hl => by simpa [handOut] using hl
  | fuel + 1, 0, l, m, hl => by simpa [handOut] using hl
  | fuel + 1, rem + 1, l, m, hl => by
    have hp := passOnce_lb (rem + 1) l m hl
    by_cases h : (passOnce (rem + 1) l).1 = rem + 1
    · simp only [handOut, if_pos h]
      exact hp
    · simp only [handOut, if_neg h]
      exact handOut_lb fuel (passOnce (rem + 1) l).1 (passOnce (rem + 1) l).2 m hp

lemma clampBase_ge (n : Nat) : MIN_WORKERS_PER_USER ≤ clampBase n := by
  have h1 : MIN_WORKERS_PER_USER ≤ MAX_WORKERS_PER_USER := by
    simp [MIN_WORKERS_PER_USER, MAX_WORKERS_PER_USER]
  exact le_min_iff.mpr ⟨h1, le_max_left _ _⟩

lemma redistributeAllocs_length (n : Nat) : (redistributeAllocs n).length = n := by
  simp [redistributeAllocs, handOut_length, List.length_replicate]

lemma redistributeAllocs_lb (n : Nat) :
    ∀ b ∈ redistributeAllocs n, MIN_WORKERS_PER_USER ≤ b := by
  intro b hb
  have h := handOut_lb _ _ _ (clampBase n)
    (fun a ha => le_of_eq (List.eq_of_mem_replicate ha).symm) b hb
  exact le_trans (clampBase_ge n) h

lemma redistributeAllocs_sum (n : Nat)
    (h : n * MIN_WORKERS_PER_USER ≤ MAX_TOTAL_WORKERS) :
    (redistributeAllocs n).sum ≤ MAX_TOTAL_WORKERS := by
  have hrep : (List.replicate n (clampBase n)).sum = n * clampBase n := by
    simp [List.sum_replicate]
  by_cases hc : clampBase n * n < MAX_TOTAL_WORKERS ∧
      clampBase n < MAX_WORKERS_PER_USER
  · have hs := handOut_sum (MAX_TOTAL_WORKERS - clampBase n * n)
      (MAX_TOTAL_WORKERS - clampBase n * n) (List.replicate n (clampBase n))
    have hcomm : n * clampBase n = clampBase n * n := Nat.mul_comm _ _
    simp only [redistributeAllocs, if_pos hc]
    omega
  · have hs := handOut_sum 0 0 (List.replicate n (clampBase n))
    have hbn : clampBase n * n ≤ MAX_TOTAL_WORKERS := by
      rcases Nat.eq_zero_or_pos n with h0 | hn
      · subst h0; simp
      · have h15 : MIN_WORKERS_PER_USER ≤ MAX_TOTAL_WORKERS / n := by
          rw [Nat.le_div_iff_mul_le hn, Nat.mul_comm]
          exact h
        have hbase : clampBase n ≤ MAX_TOTAL_WORKERS / n := by
          unfold clampBase
          rw [max_eq_right h15]
          exact min_le_right _ _
        have hmul : clampBase n * n ≤ (MAX_TOTAL_WORKERS / n) * n :=
          Nat.mul_le_mul_right n hbase
        have hdm : (MAX_TOTAL_WORKERS / n) * n ≤ MAX_TOTAL_WORKERS :=
          Nat.div_mul_le_self _ _
        omega
    have hcomm : n * clampBase n = clampBase n * n := Nat.mul_comm _ _
    simp only [redistributeAllocs, if_neg hc]
    omega

lemma zipWith_entry_map_snd : ∀ (l1 : SessionTable) (l2 : List Nat),
    l1.length = l2.length →
    (List.zipWith (fun e a => (e.1, { e.2 with allocated_workers := a })) l1 l2).map
      (fun e => e.2.allocated_workers) = l2
  | [], [], _ => rfl
  | [], b :: l2, h => by simp at h
  | a :: l1, [], h => by simp at h
  | a :: l1, b :: l2, h => by
    simp only [List.zipWith_cons_cons, List.map_cons]
    rw [zipWith_entry_map_snd l1 l2 (by simpa using h)]

lemma zipWith_entry_map_fst : ∀ (l1 : SessionTable) (l2 : List Nat),
    l1.length = l2.length →
    (List.zipWith (fun e a => (e.1, { e.2 with allocated_workers := a })) l1 l2).map
      Prod.fst = l1.map Prod.fst
  | [], [], _ => rfl
  | [], b :: l2, h => by simp at h
  | a :: l1, [], h => by simp at h
  | a :: l1, b :: l2, h => by
    simp only [List.zipWith_cons_cons, List.map_cons]
    rw [zipWith_entry_map_fst l1 l2 (by simpa using h)]

lemma insertByStart_perm (e : String × UserSession) :
    ∀ (l : SessionTable), (insertByStart e l).Perm (e :: l)
  | [] => List.Perm.refl _
  | x :: xs => by
    by_cases h : e.2.start_time ≤ x.2.start_time
    · rw [insertByStart, if_pos h]
    · rw [insertByStart, if_neg h]
      exact ((insertByStart_perm e xs).cons x).trans (List.Perm.swap e x xs)

lemma sortByStart_perm : ∀ (t : SessionTable), (sortByStart t).Perm t
  | [] => List.Perm.refl _
  | x :: xs =>
    (insertByStart_perm x (sortByStart xs)).trans ((sortByStart_perm xs).cons x)

lemma sortByStart_length_eq (t : SessionTable) :
    (sortByStart t).length = (redistributeAllocs t.length).length := by
  rw [(sortByStart_perm t).length_eq, redistributeAllocs_length]

lemma redistribute_map_allocs (t : SessionTable) :
    (redistribute t).map (fun e => e.2.allocated_workers)
      = redistributeAllocs t.length := by
  unfold redistribute
  exact zipWith_entry_map_snd _ _ (sortByStart_length_eq t)

lemma redistribute_keys_perm (t : SessionTable) :
    ((redistribute t).map Prod.fst).Perm (t.map Prod.fst) := by
  unfold redistribute
  rw [zipWith_entry_map_fst _ _ (sortByStart_length_eq t)]
  exact (sortByStart_perm t).map Prod.fst

lemma redistribute_length (t : SessionTable) :
    (redistribute t).length = t.length := by
  have h := redistribute_keys_perm t
  have := h.length_eq
  simpa using this

lemma redistribute_sum (t : SessionTable)
    (h : t.length * MIN_WORKERS_PER_USER ≤ MAX_TOTAL_WORKERS) :
    allocSum (redistribute t) ≤ MAX_TOTAL_WORKERS := by
  unfold allocSum
  rw [redistribute_map_allocs]
  exact redistributeAllocs_sum t.length h

lemma redistribute_alloc_ge (t : SessionTable) :
    ∀ e ∈ redistribute t, MIN_WORKERS_PER_USER ≤ e.2.allocated_workers := by
  intro e he
  have hm : e.2.allocated_workers
      ∈ (redistribute t).map (fun e => e.2.allocated_workers) :=
    List.mem_map_of_mem _ he
  rw [redistribute_map_allocs] at hm
  exact redistributeAllocs_lb t.length _ hm

lemma update_progress_keys (t : SessionTable) (u : String) (p : Nat) :
    (update_progress t u p).map Prod.fst = t.map Prod.fst := by
  simp only [update_progress, List.map_map]
  apply List.map_congr_left
  intro e _
  by_cases h : e.1 = u <;> simp [h]

lemma update_progress_allocs (t : SessionTable) (u : String) (p : Nat) :
    (update_progress t u p).map (fun e => e.2.allocated_workers)
      = t.map (fun e => e.2.allocated_workers) := by
  simp only [update_progress, List.map_map]
  apply List.map_congr_left
  intro e _
  by_cases h : e.1 = u <;> simp [h]

lemma update_progress_length (t : SessionTable) (u : String) (p : Nat) :
    (update_progress t u p).length = t.length := by
  simp [update_progress]

lemma map_upd_keys (t : SessionTable) (u stg : String) (n : Nat) :
    (t.map (updateSessionEntry u stg n)).map Prod.fst = t.map Prod.fst := by
  simp only [List.map_map]
  apply List.map_congr_left
  intro e _
  by_cases h : e.1 = u <;> simp [updateSessionEntry, h]

lemma tblFind_eq_none_iff : ∀ (t : SessionTable) (u : String),
    tblFind t u = none ↔ u ∉ t.map Prod.fst
  | [], u => by simp [tblFind]
  | (k, x) :: t, u => by
    by_cases hk : k = u
    · subst hk
      simp [tblFind]
    · rw [tblFind, if_neg hk]
      rw [tblFind_eq_none_iff t u]
      simp [hk]
      intro h
      exact fun h2 => hk h2.symm

lemma tblFind_some_mem : ∀ (t : SessionTable) (u : String) (s : UserSession),
    tblFind t u = some s → (u, s) ∈ t
  | [], u, s, h => by simp [tblFind] at h
  | (k, x) :: t, u, s, h => by
    by_cases hk : k = u
    · subst hk
      rw [tblFind, if_pos rfl] at h
      cases h
      exact List.mem_cons_self _ _
    · rw [tblFind, if_neg hk] at h
      exact List.mem_cons_of_mem _ (tblFind_some_mem t u s h)

lemma mem_tblFind_of_nodup : ∀ (t : SessionTable), keysNodup t →
    ∀ (u : String) (s : UserSession), (u, s) ∈ t → tblFind t u = some s
  | [], _, u, s, h => by simp at h
  | (k, x) :: t, hnd, u, s, h => by
    have hnd' := hnd
    rw [keysNodup, List.map_cons, List.nodup_cons] at hnd'
    rcases List.mem_cons.mp h with he | ht'
    · cases he
      rw [tblFind, if_pos rfl]
    · by_cases hk : k = u
      · subst hk
        exact absurd (List.mem_map_of_mem Prod.fst ht') hnd'.1
      · rw [tblFind, if_neg hk]
        exact mem_tblFind_of_nodup t hnd'.2 u s ht'

lemma tblFind_map_upd_self : ∀ (t : SessionTable) (u stg : String) (n : Nat),
    tblFind (t.map (updateSessionEntry u stg n)) u
      = (tblFind t u).map (fun s =>
          { s with current_stage := stg, total_items := n, processed_items := 0 })
  | [], u, stg, n => rfl
  | (k, x) :: t, u, stg, n => by
    simp only [List.map_cons]
    by_cases hk : k = u
    · subst hk
      have h1 : updateSessionEntry k stg n (k, x)
          = (k, { x with current_stage := stg, total_items := n,
                         processed_items := 0 }) := by
        unfold updateSessionEntry
        exact if_pos rfl
      have h2 : ∀ (y : UserSession) (rest : SessionTable),
          tblFind ((k, y) :: rest) k = some y := by
        intro y rest
        rw [tblFind]
        exact if_pos rfl
      rw [h1, h2, h2]
      rfl
    · have h1 : updateSessionEntry u stg n (k, x) = (k, x) := by
        unfold updateSessionEntry
        exact if_neg hk
      have h3 : ∀ (rest : SessionTable),
          tblFind ((k, x) :: rest) u = tblFind rest u := by
        intro rest
        rw [tblFind]
        exact if_neg hk
      rw [h1, h3, h3]
      exact tblFind_map_upd_self t u stg n

lemma redistribute_nodup (t : SessionTable) (hnd : keysNodup t) :
    keysNodup (redistribute t) :=
  ((redistribute_keys_perm t).symm).nodup hnd

lemma tblFind_redistribute (t : SessionTable) (hnd : keysNodup t)
    (u : String) (s : UserSession) (h : tblFind t u = some s) :
    ∃ a, tblFind (redistribute t) u
        = some { s with allocated_workers := a } := by
  have hmem : (u, s) ∈ t := tblFind_some_mem t u s h
  have hsorted : (u, s) ∈ sortByStart t :=
    ((sortByStart_perm t).mem_iff).mpr hmem
  obtain ⟨i, hi, hget⟩ := List.getElem_of_mem hsorted
  have hia : i < (redistributeAllocs t.length).length := by
    rw [← sortByStart_length_eq t]
    exact hi
  have hzi : i < (redistribute t).length := by
    rw [redistribute_length, ← (sortByStart_perm t).length_eq]
    exact hi
  refine ⟨(redistributeAllocs t.length)[i], ?_⟩
  have hentry : (redistribute t)[i] =
      (u, { s with allocated_workers := (redistributeAllocs t.length)[i] }) := by
    unfold redistribute
    rw [List.getElem_zipWith]
    rw [hget]
  have hmem2 : (u, { s with allocated_workers := (redistributeAllocs t.length)[i] })
      ∈ redistribute t := hentry ▸ List.getElem_mem hzi
  exact mem_tblFind_of_nodup _ (redistribute_nodup t hnd) _ _ hmem2

lemma count_keys_one (t : SessionTable) (hnd : keysNodup t) (u : String)
    (s : UserSession) (h : tblFind t u = some s) :
    (t.map Prod.fst).count u = 1 := by
  have hmem : u ∈ t.map Prod.fst :=
    List.mem_map_of_mem Prod.fst (tblFind_some_mem t u s h)
  have h1 : 0 < (t.map Prod.fst).count u := List.count_pos_iff.mpr hmem
  have h2 : (t.map Prod.fst).count u ≤ 1 :=
    List.nodup_iff_count_le_one.mp hnd u
  omega

lemma reachable_keysNodup {t : SessionTable} (h : ReachableSched t) :
    keysNodup t := by
  induction h with
  | init => simp [keysNodup]
  | @start t0 u stg n now hr ih =>
    simp only [start_parsing_session]
    apply redistribute_nodup
    by_cases hc : containsKey t0 u = true
    · rw [if_pos hc]
      unfold keysNodup
      rw [map_upd_keys]
      exact ih
    · rw [if_neg hc]
      unfold keysNodup
      rw [List.map_append]
      have hnm : u ∉ t0.map Prod.fst := by
        rw [← tblFind_eq_none_iff]
        simp only [containsKey] at hc
        cases hfind : tblFind t0 u with
        | none => rfl
        | some s => rw [hfind] at hc; simp at hc
      have ih' : (t0.map Prod.fst).Nodup := ih
      simp [List.nodup_append, ih', hnm]
  | @progress t0 u p hr ih =>
    unfold keysNodup
    rw [update_progress_keys]
    exact ih
  | @finish t0 u hr ih =>
    unfold finish_parsing_session
    by_cases hc : containsKey t0 u = true
    · rw [if_pos hc]
      apply redistribute_nodup
      unfold keysNodup
      exact ih.sublist ((List.filter_sublist _).map Prod.fst)
    · rw [if_neg hc]
      exact ih

/-- C1: in every reachable scheduler state, the sum of allocated workers is
at most the global ceiling of 15, except under oversubscription
(`N * M > total`), where every active session still holds at least the
per-user minimum of 2 workers.  The redistribution pass is modelled from
spec section 4.1 because `_redistribute_workers` is truncated out of the
source. -/
theorem c1_scheduler_ceiling_and_floor (t : SessionTable) (h : ReachableSched t) :
    (t.length * MIN_WORKERS_PER_USER ≤ MAX_TOTAL_WORKERS →
        allocSum t ≤ MAX_TOTAL_WORKERS) ∧
    (MAX_TOTAL_WORKERS < t.length * MIN_WORKERS_PER_USER →
        ∀ e ∈ t, MIN_WORKERS_PER_USER ≤ e.2.allocated_workers) := by
  induction h with
  | init =>
    refine ⟨fun _ => ?_, fun h2 => ?_⟩
    · simp [allocSum]
    · simp at h2
  | @start t0 u stg n now hr ih =>
    refine ⟨fun hle => ?_, fun _ e he => ?_⟩
    · simp only [start_parsing_session] at hle ⊢
      apply redistribute_sum
      rwa [redistribute_length] at hle
    · simp only [start_parsing_session] at he
      exact redistribute_alloc_ge _ e he
  | @progress t0 u p hr ih =>
    have hlen := update_progress_length t0 u p
    refine ⟨fun hle => ?_, fun hgt e he => ?_⟩
    · have hsum : allocSum (update_progress t0 u p) = allocSum t0 := by
        unfold allocSum
        rw [update_progress_allocs]
      rw [hsum]
      exact ih.1 (by rw [hlen] at hle; exact hle)
    · simp only [update_progress] at he
      rcases List.mem_map.mp he with ⟨e', he', heq⟩
      have halloc : e.2.allocated_workers = e'.2.allocated_workers := by
        rw [← heq]
        by_cases hh : e'.1 = u <;> simp [hh]
      rw [halloc]
      rw [hlen] at hgt
      exact ih.2 hgt e' he'
  | @finish t0 u hr ih =>
    by_cases hc : containsKey t0 u = true
    · refine ⟨fun hle => ?_, fun _ e he => ?_⟩
      · simp only [finish_parsing_session, if_pos hc] at hle ⊢
        apply redistribute_sum
        rwa [redistribute_length] at hle
      · simp only [finish_parsing_session, if_pos hc] at he
        exact redistribute_alloc_ge _ e he
    · simp only [finish_parsing_session, if_neg hc]
      exact ih

/-- C1 witness: the invariant applied to the reachable state after a single
admission. -/
theorem c1_scheduler_ceiling_and_floor_witness :
    ((start_parsing_session [] "u1" "links" 100 5).1.length * MIN_WORKERS_PER_USER
        ≤ MAX_TOTAL_WORKERS →
      allocSum (start_parsing_session [] "u1" "links" 100 5).1
        ≤ MAX_TOTAL_WORKERS) ∧
    (MAX_TOTAL_WORKERS
        < (start_parsing_session [] "u1" "links" 100 5).1.length
          * MIN_WORKERS_PER_USER →
      ∀ e ∈ (start_parsing_session [] "u1" "links" 100 5).1,
        MIN_WORKERS_PER_USER ≤ e.2.allocated_workers) :=
  c1_scheduler_ceiling_and_floor _
    (ReachableSched.start "u1" "links" 100 5 ReachableSched.init)

/-- C2: a second admission for a user who already holds a session mutates the
session in place: stage and total take the new arguments, the processed count
resets to 0, the creation time is unchanged, and the table still holds
exactly one session for that user. -/
theorem c2_admit_twice_updates_in_place (t : SessionTable) (h : ReachableSched t)
    (u : String) (sess : UserSession) (hfind : tblFind t u = some sess)
    (stg : String) (n now : Nat) :
    ∃ s', tblFind (start_parsing_session t u stg n now).1 u = some s' ∧
      s'.start_time = sess.start_time ∧
      s'.current_stage = stg ∧
      s'.total_items = n ∧
      s'.processed_items = 0 ∧
      ((start_parsing_session t u stg n now).1.map Prod.fst).count u = 1 := by
  have hnd := reachable_keysNodup h
  have hck : containsKey t u = true := by
    simp [containsKey, hfind]
  have ht1find : tblFind (t.map (updateSessionEntry u stg n)) u
      = some { sess with current_stage := stg, total_items := n,
                         processed_items := 0 } := by
    rw [tblFind_map_upd_self, hfind]
    rfl
  have hnd1 : keysNodup (t.map (updateSessionEntry u stg n)) := by
    unfold keysNodup
    rw [map_upd_keys]
    exact hnd
  obtain ⟨a, hfound⟩ := tblFind_redistribute _ hnd1 u _ ht1find
  have hstate : (start_parsing_session t u stg n now).1
      = redistribute (t.map (updateSessionEntry u stg n)) := by
    simp only [start_parsing_session, if_pos hck]
  exact ⟨{ sess with
      current_stage := stg
      total_items := n
      processed_items := 0
      allocated_workers := a },
    by rw [hstate]; exact hfound, rfl, rfl, rfl, rfl,
    by rw [hstate]; exact count_keys_one _ (redistribute_nodup _ hnd1) u _ hfound⟩

/-- C2 witness: the in-place-update theorem applied to the state reached by
one admission, re-admitted for the products stage. -/
theorem c2_admit_twice_updates_in_place_witness :
    ∃ s', tblFind (start_parsing_session
        (start_parsing_session [] "u7" "links" 9 3).1 "u7" "products" 4 8).1 "u7"
          = some s' ∧
      s'.start_time = (⟨"u7", 3, "links", 5, 9, 0⟩ : UserSession).start_time ∧
      s'.current_stage = "products" ∧
      s'.total_items = 4 ∧
      s'.processed_items = 0 ∧
      ((start_parsing_session (start_parsing_session [] "u7" "links" 9 3).1
          "u7" "products" 4 8).1.map Prod.fst).count "u7" = 1 :=
  c2_admit_twice_updates_in_place _
    (ReachableSched.start "u7" "links" 9 3 ReachableSched.init)
    "u7" ⟨"u7", 3, "links", 5, 9, 0⟩ (by decide) "products" 4 8

/-! ### Stage-boundary release lemmas -/

lemma tblFind_finish_self (t : SessionTable) (u : String) :
    tblFind (finish_parsing_session t u) u = none := by
  unfold finish_parsing_session
  by_cases hc : containsKey t u = true
  · rw [if_pos hc, tblFind_eq_none_iff]
    intro hmem
    have hmem2 := (redistribute_keys_perm _).mem_iff.mp hmem
    rcases List.mem_map.mp hmem2 with ⟨e, he, heq⟩
    have hf := List.mem_filter.mp he
    have : ¬ (e.1 = u) := by simpa using hf.2
    exact this heq
  · rw [if_neg hc]
    simp only [containsKey] at hc
    cases hfind : tblFind t u with
    | none => rfl
    | some s => rw [hfind] at hc; simp at hc

lemma tblFind_append_none (l : SessionTable) (u : String) :
    ∀ (t : SessionTable), tblFind t u = none → tblFind (t ++ l) u = tblFind l u
  | [], _ => rfl
  | (k, x) :: t, h => by
    by_cases hk : k = u
    · rw [tblFind, if_pos hk] at h
      cases h
    · rw [tblFind, if_neg hk] at h
      rw [List.cons_append, tblFind, if_neg hk]
      exact tblFind_append_none l u t h

lemma tblFind_admit_new (t : SessionTable) (hnd : keysNodup t) (u stg : String)
    (n tnew : Nat) (h : tblFind t u = none) :
    ∃ s', tblFind (start_parsing_session t u stg n tnew).1 u = some s' ∧
      s'.start_time = tnew := by
  have hck : ¬ containsKey t u = true := by
    simp [containsKey, h]
  have hstate : (start_parsing_session t u stg n tnew).1
      = redistribute (t ++ [(u, ⟨u, tnew, stg, 0, n, 0⟩)]) := by
    simp only [start_parsing_session, if_neg hck]
  have hnm : u ∉ t.map Prod.fst := (tblFind_eq_none_iff t u).mp h
  have hnd' : (t.map Prod.fst).Nodup := hnd
  have hnd1 : keysNodup (t ++ [(u, ⟨u, tnew, stg, 0, n, 0⟩)]) := by
    unfold keysNodup
    rw [List.map_append]
    simp [List.nodup_append, hnd', hnm]
  have hfind1 : tblFind (t ++ [(u, ⟨u, tnew, stg, 0, n, 0⟩)]) u
      = some ⟨u, tnew, stg, 0, n, 0⟩ := by
    rw [tblFind_append_none _ u t h, tblFind]
    exact if_pos rfl
  obtain ⟨a, hf⟩ := tblFind_redistribute _ hnd1 u _ hfind1
  exact ⟨_, hstate ▸ hf, rfl⟩

/-- C10: when `parse_products` or `parse_sellers` returns for a user with a
truthy user id and a non-empty work list — normally or by exception — the
user's session has been removed from the scheduler table by the `finally`
release; a subsequent admission then creates a fresh session stamped with the
new admission time. -/
theorem c10_stage_releases_session (t : SessionTable) (uid : String)
    (huid : uid ≠ "") (link_keys : List String)
    (hart : ¬ ((link_keys.map extract_article_from_url).filter
      (fun a => !(a == ""))).isEmpty = true)
    (seller_ids : List String) (hsell : ¬ (dedup seller_ids).isEmpty = true)
    (now now2 : Nat) (body body2 : List (String × Nat))
    (outcome outcome2 : StageOutcome) :
    tblFind (parse_products_sched t (some uid) link_keys now body outcome) uid
      = none ∧
    tblFind (parse_sellers_sched t (some uid) seller_ids now2 body2 outcome2) uid
      = none ∧
    (∀ t' : SessionTable, ReachableSched t' → tblFind t' uid = none →
      ∀ stg n tnew, ∃ s',
        tblFind (start_parsing_session t' uid stg n tnew).1 uid = some s' ∧
        s'.start_time = tnew) := by
  have htr : truthyId (some uid) = true := by
    simp [truthyId, huid]
  refine ⟨?_, ?_, ?_⟩
  · unfold parse_products_sched
    rw [if_neg hart, if_pos htr]
    cases outcome with
    | ok => exact tblFind_finish_self _ _
    | exc m => exact tblFind_finish_self _ _
  · unfold parse_sellers_sched
    rw [if_neg hsell, if_pos htr]
    cases outcome2 with
    | ok => exact tblFind_finish_self _ _
    | exc m => exact tblFind_finish_self _ _
  · intro t' hr hnone stg n tnew
    exact tblFind_admit_new t' (reachable_keysNodup hr) uid stg n tnew hnone

/-- C10 witness: a concrete stage call over one product link and one
duplicated seller id. -/
theorem c10_stage_releases_session_witness :
    tblFind (parse_products_sched [("u9", ⟨"u9", 1, "links", 5, 3, 0⟩)]
        (some "u9") ["https://ozon.ru/product/abc-123/"] 4 [("u9", 2)]
        StageOutcome.ok) "u9" = none ∧
    tblFind (parse_sellers_sched [("u9", ⟨"u9", 1, "links", 5, 3, 0⟩)]
        (some "u9") ["77", "77"] 6 [] (StageOutcome.exc "boom")) "u9" = none ∧
    (∀ t' : SessionTable, ReachableSched t' → tblFind t' "u9" = none →
      ∀ stg n tnew, ∃ s',
        tblFind (start_parsing_session t' "u9" stg n tnew).1 "u9" = some s' ∧
        s'.start_time = tnew) :=
  c10_stage_releases_session [("u9", ⟨"u9", 1, "links", 5, 3, 0⟩)] "u9"
    (by decide) ["https://ozon.ru/product/abc-123/"] (by decide)
    ["77", "77"] (by decide) 4 6 [("u9", 2)] [] StageOutcome.ok
    (StageOutcome.exc "boom")

/-- C7: evaluating the cleanup at the spec's example.  The duplicate
legal-form replacement writes back only the captured group `\1`, so the
space between the kept prefix and the quoted name is dropped: the code
returns "ООО\"Ромашка\"", not the "ООО \"Ромашка\"" the claim (and the
source's own inline comment) state. -/
theorem c7_clean_company_name_at_example :
    clean_company_name "ООО ООО \"Ромашка\"" = "ООО\"Ромашка\""
      ∧ clean_company_name "ООО ООО \"Ромашка\"" ≠ "ООО \"Ромашка\"" := by
  constructor
  · decide
  · decide

/-! ### Orchestrator theorems -/

/-- C8: `start_parsing` for a user who already has an active job returns
false and changes nothing — the state (active-user set, running flag, stop
event, stored results) is returned untouched and no job thread is
launched. -/
theorem c8_duplicate_start_rejected (st : AppState) (u : String) (hu : u ≠ "")
    (hact : st.active_parsing_users.contains u = true) (spawnOk : Bool) :
    start_parsing st (some u) spawnOk = (st, false, false) := by
  have h : userActive st (some u) = true := by
    have h1 : (u == "") = false := by simpa using hu
    show (!(u == "") && st.active_parsing_users.contains u) = true
    rw [h1, hact]
    rfl
  unfold start_parsing
  rw [if_pos h]

/-- C8 witness: a concrete duplicate start. -/
theorem c8_duplicate_start_rejected_witness :
    start_parsing ⟨true, ["u1"], false, none, []⟩ (some "u1") true
      = (⟨true, ["u1"], false, none, []⟩, false, false) :=
  c8_duplicate_start_rejected ⟨true, ["u1"], false, none, []⟩ "u1"
    (by decide) (by decide) true

/-- C9: when the link stage fails or yields no links, or cancellation is
observed at any of the stage-boundary checkpoints, `_parsing_task` returns
silently: the per-user results map and the last-results record are
unchanged and nothing is persisted, exported or sent. -/
theorem c9_early_return_no_partial_bundle (st : AppState) (cu : String)
    (sf : List String) (uid : Option String) (d : TaskStageData)
    (h : d.stop1 = true ∨ d.linkSuccess = false ∨ d.product_links = []
       ∨ d.stop2 = true ∨ d.stop3 = true ∨ d.stop4 = true) :
    (parsing_task st cu sf uid d).1.user_results = st.user_results ∧
    (parsing_task st cu sf uid d).1.last_results = st.last_results ∧
    (parsing_task st cu sf uid d).2 = [] := by
  have hres : parsing_task st cu sf uid d = (st, []) := by
    unfold parsing_task
    cases hs1 : d.stop1 <;> cases hls : d.linkSuccess <;>
      cases hpl : d.product_links.isEmpty <;> cases hs2 : d.stop2 <;>
      cases hs3 : d.stop3 <;> cases hs4 : d.stop4 <;>
      simp_all [List.isEmpty_iff]
  rw [hres]
  exact ⟨rfl, rfl, rfl⟩

/-- C9 witness: cancellation observed right after link collection. -/
theorem c9_early_return_no_partial_bundle_witness :
    (parsing_task ⟨true, ["u1"], true, none, []⟩ "url" [] (some "u1")
        ⟨true, ["l1"], true, false, [], false, [], false⟩).1.user_results
      = (⟨true, ["u1"], true, none, []⟩ : AppState).user_results ∧
    (parsing_task ⟨true, ["u1"], true, none, []⟩ "url" [] (some "u1")
        ⟨true, ["l1"], true, false, [], false, [], false⟩).1.last_results
      = (⟨true, ["u1"], true, none, []⟩ : AppState).last_results ∧
    (parsing_task ⟨true, ["u1"], true, none, []⟩ "url" [] (some "u1")
        ⟨true, ["l1"], true, false, [], false, [], false⟩).2 = [] :=
  c9_early_return_no_partial_bundle ⟨true, ["u1"], true, none, []⟩ "url" []
    (some "u1") ⟨true, ["l1"], true, false, [], false, [], false⟩
    (Or.inl rfl)

/-! ### Retry-loop lemmas -/

lemma str_append_ne (p e : String) (hp : p ≠ "") : p ++ e ≠ "" := by
  intro h
  apply hp
  have hd := congrArg String.data h
  rw [String.data_append] at hd
  have h1 : p.data = [] := (List.append_eq_nil.mp hd).1
  cases p
  simp_all

lemma productSticky_ok (loads : String → Except String J) (article : String)
    (wf : List (String × J)) (p : ProductInfo)
    (h : productSticky loads article wf = Except.ok p) :
    p.success = false ∧ p.error = "" := by
  unfold productSticky at h
  repeat' split at h
  all_goals
    first
      | (injection h with h2; subst h2; exact ⟨rfl, rfl⟩)
      | injection h

lemma productPriced_ok (loads : String → Except String J) (wf : List (String × J))
    (p1 p2 : ProductInfo) (h : productPriced loads wf p1 = Except.ok p2)
    (hs : p1.success = false) (he : p1.error = "") :
    p2.success = false ∧ p2.error = "" := by
  unfold productPriced at h
  repeat' split at h
  all_goals
    first
      | (injection h with h2; subst h2; exact ⟨hs, he⟩)
      | injection h

lemma productCore_ok (loads : String → Except String J) (article : String)
    (wf : List (String × J)) (p : ProductInfo)
    (h : productCore loads article wf = Except.ok p) :
    (p.success = true ∧ p.error = "") ∨
    (p.success = false ∧ p.error = "Не найдена основная информация о товаре") := by
  unfold productCore at h
  split at h
  · exact absurd h (by simp)
  · rename_i p1 hp1
    split at h
    · exact absurd h (by simp)
    · rename_i p2 hp2
      have h1 := productSticky_ok loads article wf p1 hp1
      have h2 := productPriced_ok loads wf p1 p2 hp2 h1.1 h1.2
      split at h
      · injection h with h3
        subst h3
        exact Or.inl ⟨rfl, h2.2⟩
      · injection h with h3
        subst h3
        exact Or.inr ⟨h2.1, rfl⟩

lemma product_record_flags (loads : String → Except String J) (article c : String) :
    ((parse_json_response loads article c).success = true →
      (parse_json_response loads article c).error = "") ∧
    ((parse_json_response loads article c).success = false →
      (parse_json_response loads article c).error ≠ "") := by
  unfold parse_json_response
  split
  · exact ⟨fun h => absurd h (by simp), fun _ => str_append_ne _ _ (by decide)⟩
  · split
    · exact ⟨fun h => absurd h (by simp), fun _ => by simp⟩
    · exact ⟨fun h => absurd h (by simp), fun _ => by simp⟩
    · rename_i wf hw
      split
      · rename_i p hp
        rcases productCore_ok loads article wf p hp with ⟨hs, he⟩ | ⟨hs, he⟩
        · refine ⟨fun _ => he, fun hf => ?_⟩
          rw [hs] at hf
          cases hf
        · refine ⟨fun ht => ?_, fun _ => ?_⟩
          · rw [hs] at ht
            cases ht
          · rw [he]
            decide
      · exact ⟨fun h => absurd h (by simp), fun _ => str_append_ne _ _ (by decide)⟩

lemma applyCellList_flags (loads : String → Except String J) :
    ∀ (l : List (String × J)) (si : SellerInfo),
      (applyCellList loads l si).success = si.success ∧
      (applyCellList loads l si).error = si.error
  | [], si => ⟨rfl, rfl⟩
  | (k, v) :: rest, si => by
    unfold applyCellList
    repeat' split
    all_goals
      first
        | exact ⟨rfl, rfl⟩
        | exact applyCellList_flags loads rest si

lemma seller_record_flags (loads : String → Except String J) (sid c : String) :
    ((seller_parse_json_response loads sid c).success = true →
      (seller_parse_json_response loads sid c).error = "") ∧
    ((seller_parse_json_response loads sid c).success = false →
      (seller_parse_json_response loads sid c).error ≠ "") := by
  unfold seller_parse_json_response
  split
  · exact ⟨fun h => absurd h (by simp), fun _ => str_append_ne _ _ (by decide)⟩
  · split
    · exact ⟨fun h => absurd h (by simp), fun _ => by simp⟩
    · exact ⟨fun h => absurd h (by simp), fun _ => by simp⟩
    · rename_i wf hw
      unfold sellerAssemble
      have hfl := applyCellList_flags loads wf
        { seller_id := sid
          company_name := (pick_best_text_block loads wf).1
          inn := (pick_best_text_block loads wf).2 }
      dsimp only
      split
      · exact ⟨fun _ => hfl.2, fun hf => by simp at hf⟩
      · refine ⟨fun ht => ?_, fun _ => by simp⟩
        rw [hfl.1] at ht
        simp at ht

lemma product_go_fail_step (loads : String → Except String J) (article : String)
    (f : Nat → AttemptResult) (k left : Nat) (sleeps : List Nat)
    (hf : productAttemptFails loads article (f k) = true) :
    parse_single_product_go loads article f k (left + 1 + 1) sleeps
      = parse_single_product_go loads article f (k + 1) (left + 1) (sleeps ++ [5]) := by
  unfold productAttemptFails at hf
  rw [parse_single_product_go]
  cases hfk : f k
  · exact if_pos (Nat.succ_pos left)
  · exact if_pos (Nat.succ_pos left)
  · rename_i c
    rw [hfk] at hf
    have : (parse_json_response loads article c).success = false := by
      simpa using hf
    simp only [this, if_neg Bool.false_ne_true, Bool.false_eq_true, if_false]
    exact if_pos (Nat.succ_pos left)
  · exact if_pos (Nat.succ_pos left)

lemma product_go_last_fail (loads : String → Except String J) (article : String)
    (f : Nat → AttemptResult) (k : Nat) (sleeps : List Nat)
    (hf : productAttemptFails loads article (f k) = true) :
    (parse_single_product_go loads article f k 1 sleeps).1.success = false ∧
    (parse_single_product_go loads article f k 1 sleeps).1.error ≠ "" ∧
    (parse_single_product_go loads article f k 1 sleeps).2 = sleeps := by
  unfold productAttemptFails at hf
  rw [parse_single_product_go]
  cases hfk : f k
  · exact ⟨rfl, by simp, rfl⟩
  · exact ⟨rfl, by simp, rfl⟩
  · rename_i c
    rw [hfk] at hf
    have hs : (parse_json_response loads article c).success = false := by
      simpa using hf
    have hflag := (product_record_flags loads article c).2 hs
    simp [hs, hflag]
  · rename_i m
    exact ⟨rfl, str_append_ne _ _ (by decide), rfl⟩

lemma product_go_last_success (loads : String → Except String J) (article : String)
    (f : Nat → AttemptResult) (k : Nat) (sleeps : List Nat) (c : String)
    (hc : f k = AttemptResult.gotJson c)
    (hs : (parse_json_response loads article c).success = true) :
    parse_single_product_go loads article f k 1 sleeps
      = (parse_json_response loads article c, sleeps) := by
  rw [parse_single_product_go, hc]
  simp only [hs, if_true]

lemma seller_go_fail_step (loads : String → Except String J) (sid : String)
    (g : Nat → AttemptResult) (k left : Nat) (sleeps : List Nat)
    (hg : sellerAttemptFails loads sid (g k) = true) :
    parse_single_seller_go loads sid g k (left + 1 + 1) sleeps
      = parse_single_seller_go loads sid g (k + 1) (left + 1) (sleeps ++ [5]) := by
  unfold sellerAttemptFails at hg
  rw [parse_single_seller_go]
  cases hgk : g k
  · exact if_pos (Nat.succ_pos left)
  · rfl
  · rename_i c
    rw [hgk] at hg
    have : (seller_parse_json_response loads sid c).success = false := by
      simpa using hg
    simp only [this, Bool.false_eq_true, if_false]
    exact if_pos (Nat.succ_pos left)
  · exact if_pos (Nat.succ_pos left)

lemma seller_go_last_fail (loads : String → Except String J) (sid : String)
    (g : Nat → AttemptResult) (k : Nat) (sleeps : List Nat)
    (hg : sellerAttemptFails loads sid (g k) = true) :
    (parse_single_seller_go loads sid g k 1 sleeps).1.success = false ∧
    (parse_single_seller_go loads sid g k 1 sleeps).1.error ≠ "" ∧
    ((parse_single_seller_go loads sid g k 1 sleeps).2 = sleeps ∨
      (parse_single_seller_go loads sid g k 1 sleeps).2 = sleeps ++ [5]) := by
  unfold sellerAttemptFails at hg
  rw [parse_single_seller_go]
  cases hgk : g k
  · exact ⟨rfl, by simp, Or.inl rfl⟩
  · rw [parse_single_seller_go]
    exact ⟨rfl, by simp, Or.inr rfl⟩
  · rename_i c
    rw [hgk] at hg
    have hs : (seller_parse_json_response loads sid c).success = false := by
      simpa using hg
    have hflag := (seller_record_flags loads sid c).2 hs
    simp [hs, hflag]
  · rename_i m
    exact ⟨rfl, str_append_ne _ _ (by decide), Or.inl rfl⟩

lemma seller_go_last_success (loads : String → Except String J) (sid : String)
    (g : Nat → AttemptResult) (k : Nat) (sleeps : List Nat) (c : String)
    (hc : g k = AttemptResult.gotJson c)
    (hs : (seller_parse_json_response loads sid c).success = true) :
    parse_single_seller_go loads sid g k 1 sleeps
      = (seller_parse_json_response loads sid c, sleeps) := by
  rw [parse_single_seller_go, hc]
  simp only [hs, if_true]

/-- C4 counterexample: when all three product attempts fail on the fetch, the
returned diagnostic is the page-load error, not the attempts-exhausted
message the claim promises (line 126 of `product_parser.py` is unreachable:
every failing last attempt returns its own branch message first). -/
theorem c4_attempts_exhausted_message_counterexample :
    (parse_single_product (fun _ => Except.error "x") "a"
        (fun _ => AttemptResult.navFail)).1.success = false ∧
    (parse_single_product (fun _ => Except.error "x") "a"
        (fun _ => AttemptResult.navFail)).1.error
      = "Не удалось загрузить страницу API" ∧
    (parse_single_product (fun _ => Except.error "x") "a"
        (fun _ => AttemptResult.navFail)).1.error
      ≠ "Превышено количество попыток" := by
  refine ⟨rfl, rfl, ?_⟩
  decide

/-- C4: per-item retry, amended.  Both per-item loops make at most 3 attempts
with a 5-unit sleep between failed attempts, and an item whose first two
attempts fail and whose third succeeds returns the successful record (its
`success` is true and its `error` empty by `product_record_flags` /
`seller_record_flags`) having slept exactly twice.  When all three attempts
fail the record has `success = false` and a non-empty diagnostic, but the
diagnostic is the failing branch's own message, not in general the
attempts-exhausted message the claim cites: only the seller loop's
missing-payload path ever reaches it, sleeping three times.  No exception
escapes either loop: every outcome is a returned record. -/
theorem c4_retry_backoff_and_outcomes (loads : String → Except String J)
    (article sid : String) :
    (∀ f c, productAttemptFails loads article (f 0) = true →
      productAttemptFails loads article (f 1) = true →
      f 2 = AttemptResult.gotJson c →
      (parse_json_response loads article c).success = true →
      parse_single_product loads article f
        = (parse_json_response loads article c, [5, 5])) ∧
    (∀ f, (∀ k, k < 3 → productAttemptFails loads article (f k) = true) →
      (parse_single_product loads article f).1.success = false ∧
      (parse_single_product loads article f).1.error ≠ "" ∧
      (parse_single_product loads article f).2 = [5, 5]) ∧
    (∀ g c, sellerAttemptFails loads sid (g 0) = true →
      sellerAttemptFails loads sid (g 1) = true →
      g 2 = AttemptResult.gotJson c →
      (seller_parse_json_response loads sid c).success = true →
      parse_single_seller loads sid g
        = (seller_parse_json_response loads sid c, [5, 5])) ∧
    (∀ g, (∀ k, k < 3 → sellerAttemptFails loads sid (g k) = true) →
      (parse_single_seller loads sid g).1.success = false ∧
      (parse_single_seller loads sid g).1.error ≠ "" ∧
      ((parse_single_seller loads sid g).2 = [5, 5] ∨
        (parse_single_seller loads sid g).2 = [5, 5, 5])) := by
  refine ⟨?_, ?_, ?_, ?_⟩
  · intro f c h0 h1 h2 hs
    calc parse_single_product loads article f
        = parse_single_product_go loads article f (0 + 1) (1 + 1) ([] ++ [5]) :=
          product_go_fail_step loads article f 0 1 [] h0
      _ = parse_single_product_go loads article f (1 + 1) (0 + 1)
            ([] ++ [5] ++ [5]) :=
          product_go_fail_step loads article f 1 0 ([] ++ [5]) h1
      _ = (parse_json_response loads article c, [5, 5]) :=
          product_go_last_success loads article f 2 [5, 5] c h2 hs
  · intro f hall
    have e1 : parse_single_product loads article f
        = parse_single_product_go loads article f 2 1 [5, 5] :=
      (product_go_fail_step loads article f 0 1 [] (hall 0 (by decide))).trans
        (product_go_fail_step loads article f 1 0 ([] ++ [5]) (hall 1 (by decide)))
    rw [e1]
    exact product_go_last_fail loads article f 2 [5, 5] (hall 2 (by decide))
  · intro g c h0 h1 h2 hs
    calc parse_single_seller loads sid g
        = parse_single_seller_go loads sid g (0 + 1) (1 + 1) ([] ++ [5]) :=
          seller_go_fail_step loads sid g 0 1 [] h0
      _ = parse_single_seller_go loads sid g (1 + 1) (0 + 1)
            ([] ++ [5] ++ [5]) :=
          seller_go_fail_step loads sid g 1 0 ([] ++ [5]) h1
      _ = (seller_parse_json_response loads sid c, [5, 5]) :=
          seller_go_last_success loads sid g 2 [5, 5] c h2 hs
  · intro g hall
    have e1 : parse_single_seller loads sid g
        = parse_single_seller_go loads sid g 2 1 [5, 5] :=
      (seller_go_fail_step loads sid g 0 1 [] (hall 0 (by decide))).trans
        (seller_go_fail_step loads sid g 1 0 ([] ++ [5]) (hall 1 (by decide)))
    rw [e1]
    have h := seller_go_last_fail loads sid g 2 [5, 5] (hall 2 (by decide))
    simpa using h

/-- C4 witness: a product item that fails fetch then misses the payload then
parses on the third attempt; an all-failing product item; the seller
analogues, including the missing-payload run that sleeps three times. -/
theorem c4_retry_backoff_and_outcomes_witness :
    parse_single_product loadsC4 "123" fC4
      = (parse_json_response loadsC4 "123" "good", [5, 5]) ∧
    (parse_single_product loadsC4 "123" (fun _ => AttemptResult.navFail)).1.success
        = false ∧
    parse_single_seller loadsC4s "77" fC4s
      = (seller_parse_json_response loadsC4s "77" "sgood", [5, 5]) ∧
    (parse_single_seller loadsC4s "77" (fun _ => AttemptResult.noJson)).2
      = [5, 5, 5] := by
  refine ⟨?_, ?_, ?_, ?_⟩
  · exact (c4_retry_backoff_and_outcomes loadsC4 "123" "77").1 fC4 "good"
      (by decide) (by decide) rfl (by decide)
  · exact ((c4_retry_backoff_and_outcomes loadsC4 "123" "77").2.1
      (fun _ => AttemptResult.navFail) (fun k _ => rfl)).1
  · exact (c4_retry_backoff_and_outcomes loadsC4s "123" "77").2.2.1 fC4s "sgood"
      (by decide) (by decide) rfl (by decide)
  · rcases ((c4_retry_backoff_and_outcomes loadsC4s "123" "77").2.2.2
      (fun _ => AttemptResult.noJson) (fun k _ => rfl)).2.2 with h | h
    · exact absurd h (by decide)
    · exact h

/-- C6: with every other scoring factor agreed (same name, hence the same
base points, boilerplate penalty, legal-form/quote/length bonuses, and the
same raw block, hence the same structure bonus), a candidate with a
non-empty tax id scores exactly 15 more than one with an empty tax id, so
it scores strictly higher: the +15 tax-id bonus is the whole difference. -/
theorem c6_tax_id_bonus_dominates (loads : String → Except String J)
    (company : Option String) (raw : J) (inn : String)
    (hinn : inn ≠ "") (hname : truthyOptStr company = true)
    (hclean : scorePenalty company = 0) :
    calculate_text_block_score loads company "" raw
        < calculate_text_block_score loads company inn raw ∧
    calculate_text_block_score loads company inn raw
      = calculate_text_block_score loads company "" raw + 15 := by
  unfold calculate_text_block_score
  rw [if_pos hinn, if_neg (by simp)]
  omega

/-- C6 witness: a clean legal-form-free name with and without a tax id. -/
theorem c6_tax_id_bonus_dominates_witness :
    calculate_text_block_score (fun _ => Except.error "x") (some "Ромашка") ""
        J.jnull
      < calculate_text_block_score (fun _ => Except.error "x") (some "Ромашка")
        "1234567890" J.jnull :=
  (c6_tax_id_bonus_dominates (fun _ => Except.error "x") (some "Ромашка")
    J.jnull "1234567890" (by decide) (by decide) (by decide)).1

lemma foldl_max_init_le : ∀ (l : List Int) (a : Int), a ≤ l.foldl max a
  | [], a => le_refl a
  | x :: xs, a => le_trans (le_max_left a x) (foldl_max_init_le xs (max a x))

lemma mem_le_foldl_max : ∀ (l : List Int) (a x : Int), x ∈ l → x ≤ l.foldl max a
  | y :: ys, a, x, hx => by
    rcases List.mem_cons.mp hx with h | h
    · subst h
      exact le_trans (le_max_right a x) (foldl_max_init_le ys (max a x))
    · exact mem_le_foldl_max ys (max a y) x h

lemma foldl_max_attained : ∀ (l : List Int) (a : Int),
    l.foldl max a = a ∨ l.foldl max a ∈ l
  | [], _ => Or.inl rfl
  | x :: xs, a => by
    rcases foldl_max_attained xs (max a x) with h | h
    · rcases max_cases a x with ⟨he, _⟩ | ⟨he, _⟩
      · exact Or.inl (by rw [List.foldl_cons, h, he])
      · exact Or.inr (by rw [List.foldl_cons, h, he]; exact List.mem_cons_self x xs)
    · exact Or.inr (List.mem_cons_of_mem x h)

lemma pickFold_max (loads : String → Except String J) :
    ∀ (l : List (Option String × String × J)) (best : Option String × String × Int),
      (pickFold loads l best).2.2
        = (l.map (fun b => calculate_text_block_score loads b.1 b.2.1 b.2.2)).foldl
            max best.2.2
  | [], _ => rfl
  | b :: rest, best => by
    rw [pickFold]
    by_cases h : best.2.2 < calculate_text_block_score loads b.1 b.2.1 b.2.2
    · rw [if_pos h, pickFold_max loads rest, List.map_cons, List.foldl_cons,
        max_eq_right (le_of_lt h)]
    · rw [if_neg h, pickFold_max loads rest, List.map_cons, List.foldl_cons,
        max_eq_left (le_of_not_lt h)]

lemma pickFold_stay (loads : String → Except String J) :
    ∀ (l : List (Option String × String × J)) (best : Option String × String × Int),
      (∀ b ∈ l, calculate_text_block_score loads b.1 b.2.1 b.2.2 ≤ best.2.2) →
      pickFold loads l best = best
  | [], _, _ => rfl
  | b :: rest, best, hall => by
    rw [pickFold]
    rw [if_neg (not_lt.mpr (hall b (List.mem_cons_self b rest)))]
    exact pickFold_stay loads rest best
      (fun x hx => hall x (List.mem_cons_of_mem b hx))

lemma pickFold_find (loads : String → Except String J) (M : Int) :
    ∀ (l : List (Option String × String × J)) (best : Option String × String × Int)
      (b : Option String × String × J),
      (l.map (fun x => calculate_text_block_score loads x.1 x.2.1 x.2.2)).foldl
          max best.2.2 = M →
      best.2.2 < M →
      l.find? (fun x => calculate_text_block_score loads x.1 x.2.1 x.2.2 == M)
        = some b →
      pickFold loads l best = (b.1, b.2.1, M)
  | [], best, b, hfold, hlt, _ => by
    rw [List.map_nil, List.foldl_nil] at hfold
    exact absurd hfold (ne_of_lt hlt)
  | x :: rest, best, b, hfold, hlt, hfind => by
    rw [List.map_cons, List.foldl_cons] at hfold
    rw [List.find?_cons] at hfind
    rw [pickFold]
    by_cases hsc : calculate_text_block_score loads x.1 x.2.1 x.2.2 = M
    · rw [show (calculate_text_block_score loads x.1 x.2.1 x.2.2 == M) = true
          from beq_iff_eq.mpr hsc] at hfind
      injection hfind with hb
      subst hb
      have hbest : best.2.2 < calculate_text_block_score loads x.1 x.2.1 x.2.2 :=
        hsc ▸ hlt
      rw [if_pos hbest]
      have hmax : max best.2.2 (calculate_text_block_score loads x.1 x.2.1 x.2.2)
          = calculate_text_block_score loads x.1 x.2.1 x.2.2 :=
        max_eq_right (le_of_lt hbest)
      rw [hmax] at hfold
      have hstay := pickFold_stay loads rest
        (x.1, x.2.1, calculate_text_block_score loads x.1 x.2.1 x.2.2)
        (fun y hy => by
          have := mem_le_foldl_max
            (rest.map (fun z => calculate_text_block_score loads z.1 z.2.1 z.2.2))
            (calculate_text_block_score loads x.1 x.2.1 x.2.2)
            (calculate_text_block_score loads y.1 y.2.1 y.2.2)
            (List.mem_map_of_mem _ hy)
          rw [hfold] at this
          exact le_trans this (le_of_eq hsc.symm))
      rw [hstay, hsc]
    · rw [show (calculate_text_block_score loads x.1 x.2.1 x.2.2 == M) = false
          by simp [hsc]] at hfind
      have hle : calculate_text_block_score loads x.1 x.2.1 x.2.2 ≤ M := by
        have h1 : max best.2.2 (calculate_text_block_score loads x.1 x.2.1 x.2.2)
            ≤ M :=
          hfold ▸ foldl_max_init_le _ _
        exact le_trans (le_max_right _ _) h1
      by_cases hb2 : best.2.2 < calculate_text_block_score loads x.1 x.2.1 x.2.2
      · rw [if_pos hb2]
        refine pickFold_find loads M rest _ b ?_ ?_ hfind
        · rw [max_eq_right (le_of_lt hb2)] at hfold
          exact hfold
        · exact lt_of_le_of_ne hle hsc
      · rw [if_neg hb2]
        refine pickFold_find loads M rest best b ?_ hlt hfind
        rw [max_eq_left (le_of_not_lt hb2)] at hfold
        exact hfold

lemma firstAcceptable_eq_find :
    ∀ (l : List (Nat × Option String × String)),
      firstAcceptable l
        = (match l.find? fallbackAccepts with
            | some b => (b.2.1, b.2.2)
            | none => (some "", ""))
  | [] => rfl
  | (p, c, i) :: rest => by
    rw [List.find?_cons]
    match c with
    | none =>
      rw [show fallbackAccepts (p, none, i) = false from rfl]
      exact firstAcceptable_eq_find rest
    | some s =>
      simp only [firstAcceptable]
      by_cases hs : fallbackPhrases.any (fun q => pyContains (pyLower s) q) = true
      · rw [show fallbackAccepts (p, some s, i) = false by
          simp [fallbackAccepts, hs]]
        rw [if_neg (by simp [hs])]
        exact firstAcceptable_eq_find rest
      · rw [show fallbackAccepts (p, some s, i) = true by
          simp only [fallbackAccepts, Bool.not_eq_true]
          simpa using hs]
        rw [if_pos (by simp [hs])]

/-- C5 counterexample: the fallback filters candidates with its own
three-phrase service list, not the nine-phrase list of the scoring penalty
named by the claim.  On this payload every candidate scores ≤ 0 so the
fallback runs, and it returns the name "Понятно" — itself a phrase of the
scoring penalty list — whereas the fallback the claim describes (filtering
by the scoring list) would reject every candidate. -/
theorem c5_fallback_phrase_list_counterexample :
    (∀ b ∈ collectTextBlocks loadsC5 wsC5,
      calculate_text_block_score loadsC5 b.1 b.2.1 b.2.2 ≤ 0) ∧
    pick_best_text_block loadsC5 wsC5 = (some "Понятно", "") ∧
    "Понятно" ∈ unwantedPhrases ∧
    claimFallbackSearch loadsC5 wsC5 = (some "", "") := by
  refine ⟨?_, ?_, ?_, ?_⟩ <;> decide

/-- C5: selection, amended.  `_pick_best_text_block` coincides with the
spec-side selection on every payload: the strictly highest-scoring candidate
wins, a tie keeps the first-encountered candidate, and when no candidate
scores above 0 the fallback scans candidates in ascending order of the
numeric suffix of their widget key and returns the first whose name avoids
the fallback's own three service phrases (not the scoring penalty's nine,
as the unamended claim says). -/
theorem c5_selection_refines_spec (loads : String → Except String J)
    (ws : List (String × J)) :
    pick_best_text_block loads ws = specPickBest loads ws := by
  have hM : (pickFold loads (collectTextBlocks loads ws) (some "", "", 0)).2.2
      = ((collectTextBlocks loads ws).map
          (fun b => calculate_text_block_score loads b.1 b.2.1 b.2.2)).foldl
          max 0 :=
    pickFold_max loads (collectTextBlocks loads ws) (some "", "", 0)
  unfold pick_best_text_block specPickBest
  dsimp only
  by_cases h : ((collectTextBlocks loads ws).map
      (fun b => calculate_text_block_score loads b.1 b.2.1 b.2.2)).foldl max 0 ≤ 0
  · rw [if_pos (le_of_eq_of_le hM h), if_neg (not_lt.mpr h)]
    unfold fallback_text_block_search specFallbackSearch
    rw [firstAcceptable_eq_find]
  · push_neg at h
    rw [if_neg (by rw [hM]; exact not_le.mpr h), if_pos h]
    rcases foldl_max_attained ((collectTextBlocks loads ws).map
        (fun b => calculate_text_block_score loads b.1 b.2.1 b.2.2)) 0 with h0 | hmem
    · rw [h0] at h
      exact absurd h (lt_irrefl 0)
    · rcases List.mem_map.mp hmem with ⟨b, hbmem, hbs⟩
      have hsome : ((collectTextBlocks loads ws).find?
          (fun x => calculate_text_block_score loads x.1 x.2.1 x.2.2
            == ((collectTextBlocks loads ws).map
                (fun y => calculate_text_block_score loads y.1 y.2.1 y.2.2)).foldl
                max 0)).isSome = true :=
        List.find?_isSome.mpr ⟨b, hbmem, by simpa using hbs⟩
      rcases Option.isSome_iff_exists.mp hsome with ⟨b2, hfind⟩
      rw [hfind,
        pickFold_find loads _ (collectTextBlocks loads ws) (some "", "", 0) b2
          rfl h hfind]
